import Mathlib

/-!
Verification of the Shopify → local-store catalog reconciliation core of the
`picksmart-boat` repository: the CSV Product Aggregator
(`ShopifyDataParser.groupProductData`), the Category Hierarchy Builder and
Product Migrator (`ProductMigrator`), and the webhook handlers
(`webhook-handlers.ts`, `route.ts`).

The TypeScript sources are shallowly embedded: JS strings become `String`,
JS numbers become `ℚ`/`ℤ` (`none` standing for `NaN` where a parse can fail),
`undefined`-able fields become `Option`, the Prisma database becomes an
explicit record of tables threaded through every operation, and JS library
functions (`String.split`, `parseFloat`, `parseInt`, `Array.sort`) are given
executable Lean models below.
-/

/-! ## Models of the JavaScript primitives used by the sources -/

/-- Digit run → natural number, decimal. -/
def digitsToNat (l : List Char) : Nat :=
  l.foldl (fun n c => n * 10 + (c.toNat - 48)) 0

/-- Fuel-indexed greedy scanner (structural recursion so that concrete
splits evaluate); the fuel never runs out when it starts at the input
length, since every step consumes at least one character. -/
def jsSplitAuxF (sep : List Char) : Nat → List Char → List Char → List (List Char)
  | 0, _, cur => [cur.reverse]
  | _ + 1, [], cur => [cur.reverse]
  | fuel + 1, c :: rest, cur =>
    if (c :: rest).take sep.length = sep ∧ sep ≠ [] then
      cur.reverse :: jsSplitAuxF sep fuel ((c :: rest).drop sep.length) []
    else
      jsSplitAuxF sep fuel rest (c :: cur)

/-- Model of JS `String.prototype.split(sep)` for a fixed non-empty separator,
at the character-list level: greedy left-to-right scan for non-overlapping
occurrences of `sep`; always returns at least one (possibly empty) segment. -/
def jsSplitAux (sep : List Char) (s cur : List Char) : List (List Char) :=
  jsSplitAuxF sep s.length s cur

theorem jsSplitAuxF_fuel (sep : List Char) :
    ∀ (f1 : Nat) (s cur : List Char) (f2 : Nat), s.length ≤ f1 → s.length ≤ f2 →
      jsSplitAuxF sep f1 s cur = jsSplitAuxF sep f2 s cur := by
  intro f1
  induction f1 with
  | zero =>
    intro s cur f2 h1 h2
    rw [List.length_eq_zero.mp (Nat.le_zero.mp h1)]
    cases f2 <;> rfl
  | succ f ih =>
    intro s cur f2 h1 h2
    cases s with
    | nil => cases f2 <;> rfl
    | cons c rest =>
      cases f2 with
      | zero => simp at h2
      | succ g =>
        rw [jsSplitAuxF, jsSplitAuxF]
        simp only [List.length_cons] at h1 h2
        by_cases hcond : (c :: rest).take sep.length = sep ∧ sep ≠ []
        · rw [if_pos hcond, if_pos hcond]
          have hsep1 : 1 ≤ sep.length := by
            rcases hcond with ⟨-, h⟩
            cases sep with
            | nil => exact absurd rfl h
            | cons x xs => simp
          have hd : ((c :: rest).drop sep.length).length ≤ f := by
            simp only [List.length_drop, List.length_cons]
            omega
          have hd2 : ((c :: rest).drop sep.length).length ≤ g := by
            simp only [List.length_drop, List.length_cons]
            omega
          rw [ih _ [] g hd hd2]
        · rw [if_neg hcond, if_neg hcond]
          exact ih rest (c :: cur) g (by omega) (by omega)

theorem jsSplitAux_nil (sep cur : List Char) : jsSplitAux sep [] cur = [cur.reverse] := rfl

theorem jsSplitAux_cons (sep : List Char) (c : Char) (rest cur : List Char) :
    jsSplitAux sep (c :: rest) cur
      = if (c :: rest).take sep.length = sep ∧ sep ≠ [] then
          cur.reverse :: jsSplitAux sep ((c :: rest).drop sep.length) []
        else
          jsSplitAux sep rest (c :: cur) := by
  show jsSplitAuxF sep (rest.length + 1) (c :: rest) cur = _
  rw [jsSplitAuxF]
  unfold jsSplitAux
  by_cases hcond : (c :: rest).take sep.length = sep ∧ sep ≠ []
  · rw [if_pos hcond, if_pos hcond]
    have hsep1 : 1 ≤ sep.length := by
      rcases hcond with ⟨-, h⟩
      cases sep with
      | nil => exact absurd rfl h
      | cons x xs => simp
    have hd : ((c :: rest).drop sep.length).length ≤ rest.length := by
      simp only [List.length_drop, List.length_cons]
      omega
    rw [jsSplitAuxF_fuel sep rest.length _ [] _ hd le_rfl]
  · rw [if_neg hcond, if_neg hcond]

/-- Model of JS `String.prototype.split(sep)` (non-empty string separator). -/
def jsSplit (sep : String) (s : String) : List String :=
  (jsSplitAux sep.data s.data []).map (fun cs => ⟨cs⟩)

/-- Model of JS `Array.prototype.join(sep)`. -/
def jsJoin (sep : String) : List String → String
  | [] => ""
  | [a] => a
  | a :: b :: l => a ++ sep ++ jsJoin sep (b :: l)

/-- Whitespace skipped by JS numeric parsing. -/
def isJsSpace (c : Char) : Bool :=
  c = ' ' ∨ c = '\t' ∨ c = '\n' ∨ c = '\r'

/-- Exponent part of a JS float literal (`e`/`E` already consumed); a malformed
exponent contributes `0`, as `parseFloat` then stops before the `e`. -/
def parseExpPart (cs : List Char) : Int :=
  let (sgn, cs') : Int × List Char :=
    match cs with
    | '-' :: rest => (-1, rest)
    | '+' :: rest => (1, rest)
    | _ => (1, cs)
  let digits := cs'.takeWhile Char.isDigit
  if digits = [] then 0 else sgn * (digitsToNat digits : Int)

/-- Powers of ten. -/
def pow10 (n : Nat) : Nat :=
  10 ^ n

/-- The exact rational `m · 10^e` built from core `mkRat` alone (the
`Rat` field operations of the library are irreducible, so the embedding
constructs parsed values directly). -/
def decScale (m : ℤ) (e : ℤ) : ℚ :=
  match e with
  | Int.ofNat k => mkRat (m * (pow10 k : ℤ)) 1
  | Int.negSucc k => mkRat m (pow10 (k + 1))

/-- Model of JS `parseFloat`: longest numeric prefix after optional whitespace
and sign; `none` models `NaN`.  The value is kept as an exact rational (the
sources only ever compare parsed prices with `0` and copy them around, so
IEEE rounding is irrelevant here): `sign · intPart.fracPart · 10^exp` is
assembled as `sign · digits(intPart ++ fracPart) · 10^(exp - |fracPart|)`. -/
def parseFloatM (s : String) : Option ℚ :=
  let cs := s.data.dropWhile isJsSpace
  let (sgn, cs0) : ℤ × List Char :=
    match cs with
    | '-' :: rest => (-1, rest)
    | '+' :: rest => (1, rest)
    | _ => (1, cs)
  let intPart := cs0.takeWhile Char.isDigit
  let cs1 := cs0.dropWhile Char.isDigit
  let (fracPart, cs2) : List Char × List Char :=
    match cs1 with
    | '.' :: rest => (rest.takeWhile Char.isDigit, rest.dropWhile Char.isDigit)
    | _ => ([], cs1)
  if intPart = [] ∧ fracPart = [] then none
  else
    let e : Int :=
      match cs2 with
      | 'e' :: rest => parseExpPart rest
      | 'E' :: rest => parseExpPart rest
      | _ => 0
    some (decScale (sgn * (digitsToNat (intPart ++ fracPart) : ℤ)) (e - fracPart.length))

/-- Model of JS `parseInt` (implicit base 10): integer digit prefix after
optional whitespace and sign; `none` models `NaN`. -/
def parseIntM (s : String) : Option ℤ :=
  let cs := s.data.dropWhile isJsSpace
  let (sgn, cs0) : ℤ × List Char :=
    match cs with
    | '-' :: rest => (-1, rest)
    | '+' :: rest => (1, rest)
    | _ => (1, cs)
  let digits := cs0.takeWhile Char.isDigit
  if digits = [] then none else some (sgn * (digitsToNat digits : ℤ))

/-- JS `parseFloat(s) || d` / `parseInt(s) || d`: `NaN`, `0` and `-0` are
falsy, so both `none` and `0` fall back to the default. -/
def jsNumOr (v : Option ℚ) (d : ℚ) : ℚ :=
  match v with
  | none => d
  | some q => if q = 0 then d else q

/-- Embeds `parseInt(s) || d` analogue over `ℤ`. -/
def jsIntOr (v : Option ℤ) (d : ℤ) : ℤ :=
  match v with
  | none => d
  | some n => if n = 0 then d else n

/-- JS `s || undefined` for strings: empty string is falsy. -/
def strOrNone (s : String) : Option String :=
  if s = "" then none else some s

/-! ## `shopify-parser.ts`: row and aggregate types -/

/-- One raw CSV row (`ShopifyProductRow`); every column is a string, exactly
as produced by the CSV parse with `columns: true`. -/
structure ShopifyProductRow where
  Handle : String
  Title : String
  BodyHTML : String
  Vendor : String
  ProductCategory : String
  RowType : String  -- the CSV column named Type; Type is a Lean keyword
  Tags : String
  Published : String
  Option1Name : String
  Option1Value : String
  VariantSKU : String
  VariantGrams : String
  VariantInventoryQty : String
  VariantPrice : String
  VariantCompareAtPrice : String
  ImageSrc : String
  ImagePosition : String
  ImageAltText : String
  SEOTitle : String
  SEODescription : String
  CostPerItem : String
  Status : String
  ColorMeta : String
  ExerciseMeta : String
  deriving DecidableEq, Repr

/-- Embeds `ParsedVariant`.  JS stores `NaN` where a non-empty numeric column is
unparseable; those (claim-irrelevant) `NaN`s are collapsed into `none`. -/
structure ParsedVariant where
  title : String
  sku : Option String
  price : ℚ
  compareAtPrice : Option ℚ
  costPerItem : Option ℚ
  inventoryQty : ℤ
  weight : Option ℚ
  option1Value : Option String
  deriving DecidableEq, Repr

/-- Embeds `ParsedImage`. -/
structure ParsedImage where
  src : String
  altText : Option String
  position : ℤ
  deriving DecidableEq, Repr

/-- Embeds `ParsedMetafield` (`namespace` is a Lean keyword, hence `nspace`). -/
structure ParsedMetafield where
  nspace : String
  key : String
  value : String
  type : String
  deriving DecidableEq, Repr

/-- Product lifecycle status. -/
inductive PStatus where
  | active
  | draft
  | archived
  deriving DecidableEq, Repr

/-- Embeds `ParsedProduct`. -/
structure ParsedProduct where
  handle : String
  title : String
  bodyHtml : String
  vendor : String
  productCategory : String
  type : String
  tags : List String
  published : Bool
  seoTitle : String
  seoDescription : String
  status : PStatus
  variants : List ParsedVariant
  images : List ParsedImage
  metafields : List ParsedMetafield
  deriving DecidableEq, Repr

/-- Embeds `normalizeStatus`. -/
def normalizeStatus (status : String) : PStatus :=
  if status = "" then .active
  else
    let normalized := status.toLower.trim
    if normalized = "active" then .active
    else if normalized = "draft" then .draft
    else if normalized = "archived" then .archived
    else .active

/-- Tag parsing: `row.Tags ? row.Tags.split(',').map(t => t.trim()).filter(t => t) : []`. -/
def parseTags (tags : String) : List String :=
  if tags = "" then []
  else ((jsSplit "," tags).map String.trim).filter (fun t => t ≠ "")

/-- The fresh aggregate built on first sight of a handle
(`products.set(handle, {...})`), child lists empty. -/
def initProduct (row : ShopifyProductRow) : ParsedProduct where
  handle := row.Handle
  title := row.Title
  bodyHtml := row.BodyHTML
  vendor := row.Vendor
  productCategory := row.ProductCategory
  type := row.RowType
  tags := parseTags row.Tags
  published := row.Published = "true"
  seoTitle := row.SEOTitle
  seoDescription := row.SEODescription
  status := normalizeStatus row.Status
  variants := []
  images := []
  metafields := []

/-- Whether a row contributes a variant:
`row['Variant Price'] && parseFloat(row['Variant Price']) > 0`. -/
def rowHasVariant (row : ShopifyProductRow) : Bool :=
  row.VariantPrice ≠ "" &&
    match parseFloatM row.VariantPrice with
    | some q => decide (0 < q)
    | none => false

/-- The variant record built from a contributing row. -/
def mkVariant (row : ShopifyProductRow) : ParsedVariant where
  title := if row.Option1Value = "" then "Default Title" else row.Option1Value
  sku := strOrNone row.VariantSKU
  price := jsNumOr (parseFloatM row.VariantPrice) 0
  compareAtPrice := if row.VariantCompareAtPrice = "" then none else parseFloatM row.VariantCompareAtPrice
  costPerItem := if row.CostPerItem = "" then none else parseFloatM row.CostPerItem
  inventoryQty := (parseIntM row.VariantInventoryQty).getD 0
  weight := if row.VariantGrams = "" then none
            else (parseFloatM row.VariantGrams).map (fun q => mkRat q.num (q.den * 1000))
  option1Value := strOrNone row.Option1Value

/-- The image record built from a row with a non-empty `Image Src`. -/
def mkImage (row : ShopifyProductRow) : ParsedImage where
  src := row.ImageSrc
  altText := strOrNone row.ImageAltText
  position := jsIntOr (parseIntM row.ImagePosition) 1

/-- Variant accumulation step: push unless an already-accumulated variant has
the same SKU and the same primary option value. -/
def addVariantRow (p : ParsedProduct) (row : ShopifyProductRow) : ParsedProduct :=
  if rowHasVariant row then
    let v := mkVariant row
    if p.variants.any (fun w => w.sku == v.sku && w.option1Value == v.option1Value) then p
    else { p with variants := p.variants ++ [v] }
  else p

/-- Image accumulation step: push unless an image with the same `src` is
already accumulated. -/
def addImageRow (p : ParsedProduct) (row : ShopifyProductRow) : ParsedProduct :=
  if row.ImageSrc ≠ "" then
    let img := mkImage row
    if p.images.any (fun i => i.src == img.src) then p
    else { p with images := p.images ++ [img] }
  else p

/-- One conditional metafield push of `extractMetafields`: append a
`shopify`-namespaced string metafield unless the value is empty or a
metafield with that key is already accumulated. -/
def addMetaIfNew (ms : List ParsedMetafield) (key value : String) : List ParsedMetafield :=
  if value ≠ "" ∧ ¬ ms.any (fun m => m.key == key) then
    ms ++ [ParsedMetafield.mk "shopify" key value "string"]
  else ms

/-- Embeds `extractMetafields`: at most one `shopify.color-pattern` and one
`shopify.exercise-machine-features` metafield, first non-empty value wins. -/
def extractMetafieldsRow (p : ParsedProduct) (row : ShopifyProductRow) : ParsedProduct :=
  let p1 := { p with metafields := addMetaIfNew p.metafields "color-pattern" row.ColorMeta }
  { p1 with metafields := addMetaIfNew p1.metafields "exercise-machine-features" row.ExerciseMeta }

/-- Everything the loop body does to the aggregate of the row's handle. -/
def rowStep (p : ParsedProduct) (row : ShopifyProductRow) : ParsedProduct :=
  extractMetafieldsRow (addImageRow (addVariantRow p row) row) row

/-- Association-list lookup (JS `Map.get`/`has`; a JS `Map` is an
insertion-ordered key/value sequence with unique keys). -/
def lookupA (m : List (String × ParsedProduct)) (h : String) : Option ParsedProduct :=
  match m with
  | [] => none
  | (k, p) :: m' => if k = h then some p else lookupA m' h

/-- In-place update of the entry with the given key, if present. -/
def updateA (m : List (String × ParsedProduct)) (h : String) (f : ParsedProduct → ParsedProduct) :
    List (String × ParsedProduct) :=
  match m with
  | [] => []
  | (k, p) :: m' => if k = h then (k, f p) :: m' else (k, p) :: updateA m' h f

/-- One iteration of the `for (const row of rows)` loop. -/
def processRow (m : List (String × ParsedProduct)) (row : ShopifyProductRow) :
    List (String × ParsedProduct) :=
  if row.Handle = "" then m
  else
    let m1 :=
      if (lookupA m row.Handle).isSome then m
      else m ++ [(row.Handle, initProduct row)]
    updateA m1 row.Handle (fun p => rowStep p row)

/-- Stable insertion into an image list ordered by ascending position; models
the behaviour of the (ES2019-stable) JS `sort((a, b) => a.position - b.position)`. -/
def insertImg (a : ParsedImage) : List ParsedImage → List ParsedImage
  | [] => [a]
  | b :: l => if a.position ≤ b.position then a :: b :: l else b :: insertImg a l

/-- Stable sort of a product's images by ascending position. -/
def sortImages : List ParsedImage → List ParsedImage
  | [] => []
  | a :: l => insertImg a (sortImages l)

/-- Embeds `ShopifyDataParser.groupProductData`: fold the rows, then sort each
product's images by position. -/
def groupProductData (rows : List ShopifyProductRow) : List (String × ParsedProduct) :=
  ((rows.foldl processRow []).map (fun e => (e.1, { e.2 with images := sortImages e.2.images })))

/-! ## Generic list machinery: push-unless-key-present folds -/

/-- Push `v` at the end unless an element with the same key is present —
the accumulation pattern of variants (key: SKU × primary option value) and
images (key: source URL) in `groupProductData`. -/
def pushIfNewKey {β γ : Type} [BEq γ] [LawfulBEq γ] (key : β → γ) (l : List β) (v : β) : List β :=
  if l.any (fun w => key w == key v) then l else l ++ [v]

/-- Keep only the first element of each key (keys in `seen` being dropped
outright), preserving order. -/
def keepFirstByAux {β γ : Type} [BEq γ] [LawfulBEq γ] (key : β → γ) (seen : List γ) :
    List β → List β
  | [] => []
  | v :: l =>
    if seen.any (fun k => k == key v) then keepFirstByAux key seen l
    else v :: keepFirstByAux key (seen ++ [key v]) l

/-- Keep only the first element of each key, preserving order. -/
def keepFirstBy {β γ : Type} [BEq γ] [LawfulBEq γ] (key : β → γ) (l : List β) : List β :=
  keepFirstByAux key [] l

theorem any_map_beq {β γ : Type} [BEq γ] [LawfulBEq γ] (key : β → γ) (acc : List β) (t : γ) :
    ((acc.map key).any fun k => k == t) = acc.any fun w => key w == t := by
  induction acc with
  | nil => rfl
  | cons a acc ih => simp [List.any_cons, ih]

theorem foldl_pushIfNewKey {β γ : Type} [BEq γ] [LawfulBEq γ] (key : β → γ) (l : List β) :
    ∀ acc : List β,
      l.foldl (pushIfNewKey key) acc = acc ++ keepFirstByAux key (acc.map key) l := by
  induction l with
  | nil => intro acc; simp [keepFirstByAux]
  | cons v l ih =>
    intro acc
    have hguard : (acc.map key).any (fun k => k == key v) = acc.any (fun w => key w == key v) :=
      any_map_beq key acc (key v)
    by_cases hv : acc.any (fun w => key w == key v)
    · have hstep : pushIfNewKey key acc v = acc := by simp [pushIfNewKey, hv]
      simp only [List.foldl_cons, hstep, keepFirstByAux, hguard, hv, if_true, ih acc]
    · have hstep : pushIfNewKey key acc v = acc ++ [v] := by simp [pushIfNewKey, hv]
      simp only [List.foldl_cons, hstep, keepFirstByAux, hguard, hv, if_false,
        Bool.false_eq_true, ih (acc ++ [v])]
      rw [List.append_assoc]
      congr 1
      simp [List.map_append]

theorem foldl_pushIfNewKey_nil {β γ : Type} [BEq γ] [LawfulBEq γ] (key : β → γ) (l : List β) :
    l.foldl (pushIfNewKey key) [] = keepFirstBy key l := by
  simpa [keepFirstBy] using foldl_pushIfNewKey key l []

theorem keepFirstByAux_subset {β γ : Type} [BEq γ] [LawfulBEq γ] (key : β → γ) (l : List β) :
    ∀ seen, ∀ x ∈ keepFirstByAux key seen l, x ∈ l := by
  induction l with
  | nil => intro seen x hx; simp [keepFirstByAux] at hx
  | cons v l ih =>
    intro seen x hx
    rw [keepFirstByAux] at hx
    by_cases hv : seen.any (fun k => k == key v)
    · simp only [hv, if_true] at hx
      exact List.mem_cons_of_mem _ (ih seen x hx)
    · simp only [hv, if_false, Bool.false_eq_true, List.mem_cons] at hx
      cases hx with
      | inl h => exact h ▸ List.mem_cons_self _ _
      | inr h => exact List.mem_cons_of_mem _ (ih _ x h)

theorem keepFirstByAux_key_not_seen {β γ : Type} [BEq γ] [LawfulBEq γ] (key : β → γ) (l : List β) :
    ∀ seen, ∀ x ∈ keepFirstByAux key seen l, seen.any (fun k => k == key x) = false := by
  induction l with
  | nil => intro seen x hx; simp [keepFirstByAux] at hx
  | cons v l ih =>
    intro seen x hx
    rw [keepFirstByAux] at hx
    by_cases hv : seen.any (fun k => k == key v)
    · simp only [hv, if_true] at hx
      exact ih seen x hx
    · simp only [hv, if_false, Bool.false_eq_true, List.mem_cons] at hx
      cases hx with
      | inl h => subst h; exact Bool.eq_false_iff.mpr hv
      | inr h =>
        have := ih (seen ++ [key v]) x h
        simp only [List.any_append] at this
        exact (Bool.or_eq_false_iff.mp this).1

theorem keepFirstByAux_pairwise {β γ : Type} [BEq γ] [LawfulBEq γ] (key : β → γ) (l : List β) :
    ∀ seen, (keepFirstByAux key seen l).Pairwise (fun a b => key a ≠ key b) := by
  induction l with
  | nil => intro seen; simp [keepFirstByAux]
  | cons v l ih =>
    intro seen
    rw [keepFirstByAux]
    by_cases hv : seen.any (fun k => k == key v)
    · simp only [hv, if_true]; exact ih seen
    · simp only [hv, if_false, Bool.false_eq_true]
      refine List.Pairwise.cons ?_ (ih _)
      intro b hb
      have := keepFirstByAux_key_not_seen key l (seen ++ [key v]) b hb
      simp only [List.any_append, List.any_cons, List.any_nil, Bool.or_false,
        Bool.or_eq_false_iff] at this
      intro hkey
      rw [hkey] at this
      simp at this

theorem keepFirstBy_pairwise {β γ : Type} [BEq γ] [LawfulBEq γ] (key : β → γ) (l : List β) :
    (keepFirstBy key l).Pairwise (fun a b => key a ≠ key b) :=
  keepFirstByAux_pairwise key l []

theorem keepFirstBy_subset {β γ : Type} [BEq γ] [LawfulBEq γ] (key : β → γ) (l : List β) :
    ∀ x ∈ keepFirstBy key l, x ∈ l :=
  keepFirstByAux_subset key l []

/-! ## Association-list lemmas for the aggregation map -/

theorem lookupA_append (m m' : List (String × ParsedProduct)) (h : String) :
    lookupA (m ++ m') h = match lookupA m h with | some p => some p | none => lookupA m' h := by
  induction m with
  | nil => simp [lookupA]
  | cons e m ih =>
    rw [List.cons_append, lookupA, lookupA]
    by_cases hk : e.1 = h
    · simp [hk]
    · simp only [hk, if_false]
      exact ih

theorem lookupA_updateA_self (m : List (String × ParsedProduct)) (h : String)
    (f : ParsedProduct → ParsedProduct) :
    lookupA (updateA m h f) h = (lookupA m h).map f := by
  induction m with
  | nil => simp [lookupA, updateA]
  | cons e m ih =>
    rw [updateA]
    by_cases hk : e.1 = h
    · simp [lookupA, hk]
    · rw [if_neg hk, lookupA, lookupA, if_neg hk, if_neg hk]
      exact ih

theorem lookupA_updateA_ne (m : List (String × ParsedProduct)) (h h' : String)
    (f : ParsedProduct → ParsedProduct) (hne : h ≠ h') :
    lookupA (updateA m h f) h' = lookupA m h' := by
  induction m with
  | nil => simp [lookupA, updateA]
  | cons e m ih =>
    rw [updateA]
    by_cases hk : e.1 = h
    · have h1 : e.1 ≠ h' := by rw [hk]; exact hne
      rw [if_pos hk]
      simp [lookupA, h1]
    · rw [if_neg hk, lookupA, lookupA]
      by_cases hk' : e.1 = h'
      · simp [hk']
      · rw [if_neg hk', if_neg hk']
        exact ih

theorem lookupA_processRow_ne (m : List (String × ParsedProduct)) (row : ShopifyProductRow)
    (h : String) (hne : row.Handle ≠ h) :
    lookupA (processRow m row) h = lookupA m h := by
  rw [processRow]
  by_cases hempty : row.Handle = ""
  · rw [if_pos hempty]
  · rw [if_neg hempty]
    by_cases hsome : (lookupA m row.Handle).isSome
    · simp only [hsome, if_true]
      exact lookupA_updateA_ne m row.Handle h _ hne
    · simp only [hsome, if_false, Bool.false_eq_true]
      rw [lookupA_updateA_ne _ row.Handle h _ hne, lookupA_append]
      cases hm : lookupA m h with
      | some p => rfl
      | none => simp [lookupA, hne]

theorem lookupA_processRow_self (m : List (String × ParsedProduct)) (row : ShopifyProductRow)
    (hne : row.Handle ≠ "") :
    lookupA (processRow m row) row.Handle
      = some (rowStep ((lookupA m row.Handle).getD (initProduct row)) row) := by
  rw [processRow, if_neg hne]
  cases hm : lookupA m row.Handle with
  | some p =>
    simp only [hm, Option.isSome_some, if_true]
    rw [lookupA_updateA_self, hm]
    rfl
  | none =>
    simp only [hm, Option.isSome_none, if_false, Bool.false_eq_true]
    rw [lookupA_updateA_self, lookupA_append, hm]
    simp [lookupA]

/-- The per-handle projection of the aggregation fold: what
`groupProductData` accumulates for handle `h` is a fold of `rowStep` over
exactly the rows bearing handle `h`, seeded by `initProduct` of the first
such row. -/
theorem lookupA_foldl (rows : List ShopifyProductRow) (h : String) (hne : h ≠ "") :
    ∀ m : List (String × ParsedProduct),
      lookupA (rows.foldl processRow m) h =
        match lookupA m h with
        | some p => some ((rows.filter (fun r => r.Handle == h)).foldl rowStep p)
        | none =>
          match rows.filter (fun r => r.Handle == h) with
          | [] => none
          | r :: l => some (l.foldl rowStep (rowStep (initProduct r) r)) := by
  induction rows with
  | nil =>
    intro m
    cases hm : lookupA m h <;> simp [hm]
  | cons row rest ih =>
    intro m
    rw [List.foldl_cons]
    by_cases hrow : row.Handle = h
    · have hfilter : (row :: rest).filter (fun r => r.Handle == h) = row :: rest.filter (fun r => r.Handle == h) := by
        simp [List.filter_cons, hrow]
      have hself := lookupA_processRow_self m row (by rw [hrow]; exact hne)
      rw [hrow] at hself
      rw [ih (processRow m row), hself, hfilter]
      cases hm : lookupA m h with
      | some p => simp [hrow, hm]
      | none => simp [hrow, hm]
    · have hfilter : (row :: rest).filter (fun r => r.Handle == h) = rest.filter (fun r => r.Handle == h) := by
        simp [List.filter_cons, hrow]
      rw [ih (processRow m row), lookupA_processRow_ne m row h hrow, hfilter]

/-! ## Effect of the loop body on each component of the aggregate -/

/-- The product-level (non-child) fields of an aggregate, as one tuple. -/
def prodFields (p : ParsedProduct) :=
  (p.handle, p.title, p.bodyHtml, p.vendor, p.productCategory, p.type, p.tags,
    p.published, p.seoTitle, p.seoDescription, p.status)

/-- Deduplication key of a variant: SKU and primary option value. -/
def varKey (v : ParsedVariant) : Option String × Option String :=
  (v.sku, v.option1Value)

/-- Deduplication key of an image: its source URL. -/
def imgKey (i : ParsedImage) : String :=
  i.src

/-- The variant push of the loop body, on the variants list alone. -/
def pushVariant (l : List ParsedVariant) (v : ParsedVariant) : List ParsedVariant :=
  if l.any (fun w => w.sku == v.sku && w.option1Value == v.option1Value) then l else l ++ [v]

/-- The image push of the loop body, on the images list alone. -/
def pushImage (l : List ParsedImage) (i : ParsedImage) : List ParsedImage :=
  if l.any (fun w => w.src == i.src) then l else l ++ [i]

theorem pushVariant_eq (l : List ParsedVariant) (v : ParsedVariant) :
    pushVariant l v = pushIfNewKey varKey l v := rfl

theorem pushImage_eq (l : List ParsedImage) (i : ParsedImage) :
    pushImage l i = pushIfNewKey imgKey l i := rfl

theorem addVariantRow_eq (p : ParsedProduct) (row : ShopifyProductRow) :
    addVariantRow p row
      = { p with variants :=
                   if rowHasVariant row then pushVariant p.variants (mkVariant row)
                   else p.variants } := by
  unfold addVariantRow pushVariant
  by_cases h1 : rowHasVariant row
  · by_cases h2 : p.variants.any fun w =>
        w.sku == (mkVariant row).sku && w.option1Value == (mkVariant row).option1Value
    · simp [h1, h2]
    · simp [h1, h2]
  · simp [h1]

theorem addImageRow_eq (p : ParsedProduct) (row : ShopifyProductRow) :
    addImageRow p row
      = { p with images :=
                   if row.ImageSrc ≠ "" then pushImage p.images (mkImage row)
                   else p.images } := by
  unfold addImageRow pushImage
  by_cases h1 : row.ImageSrc = ""
  · simp [h1]
  · by_cases h2 : p.images.any fun i => i.src == (mkImage row).src
    · simp [h1, h2]
    · simp [h1, h2]

theorem rowStep_eq (p : ParsedProduct) (row : ShopifyProductRow) :
    rowStep p row
      = { p with
          variants :=
                     if rowHasVariant row then pushVariant p.variants (mkVariant row)
                     else p.variants,
          images :=
                   if row.ImageSrc ≠ "" then pushImage p.images (mkImage row)
                   else p.images,
          metafields :=
                       addMetaIfNew (addMetaIfNew p.metafields "color-pattern" row.ColorMeta)
                         "exercise-machine-features" row.ExerciseMeta } := by
  unfold rowStep extractMetafieldsRow
  rw [addVariantRow_eq, addImageRow_eq]

theorem prodFields_rowStep (p : ParsedProduct) (row : ShopifyProductRow) :
    prodFields (rowStep p row) = prodFields p := by
  rw [rowStep_eq]; rfl

theorem variants_rowStep (p : ParsedProduct) (row : ShopifyProductRow) :
    (rowStep p row).variants =
      if rowHasVariant row then pushIfNewKey varKey p.variants (mkVariant row)
      else p.variants := by
  rw [rowStep_eq, pushVariant_eq]

theorem images_rowStep (p : ParsedProduct) (row : ShopifyProductRow) :
    (rowStep p row).images =
      if row.ImageSrc ≠ "" then pushIfNewKey imgKey p.images (mkImage row)
      else p.images := by
  rw [rowStep_eq, pushImage_eq]

theorem metafields_rowStep (p : ParsedProduct) (row : ShopifyProductRow) :
    (rowStep p row).metafields =
      addMetaIfNew (addMetaIfNew p.metafields "color-pattern" row.ColorMeta)
        "exercise-machine-features" row.ExerciseMeta := by
  rw [rowStep_eq]

theorem prodFields_foldl_rowStep (l : List ShopifyProductRow) :
    ∀ p : ParsedProduct, prodFields (l.foldl rowStep p) = prodFields p := by
  induction l with
  | nil => intro p; rfl
  | cons row l ih => intro p; rw [List.foldl_cons, ih, prodFields_rowStep]

theorem variants_foldl_rowStep (l : List ShopifyProductRow) :
    ∀ p : ParsedProduct,
      (l.foldl rowStep p).variants
        = ((l.filter rowHasVariant).map mkVariant).foldl (pushIfNewKey varKey) p.variants := by
  induction l with
  | nil => intro p; rfl
  | cons row l ih =>
    intro p
    rw [List.foldl_cons, ih (rowStep p row), variants_rowStep, List.filter_cons]
    by_cases hrow : rowHasVariant row
    · simp [hrow]
    · simp [hrow]

theorem images_foldl_rowStep (l : List ShopifyProductRow) :
    ∀ p : ParsedProduct,
      (l.foldl rowStep p).images
        = ((l.filter (fun r => r.ImageSrc ≠ "")).map mkImage).foldl (pushIfNewKey imgKey) p.images := by
  induction l with
  | nil => intro p; rfl
  | cons row l ih =>
    intro p
    rw [List.foldl_cons, ih (rowStep p row), images_rowStep, List.filter_cons]
    by_cases hrow : row.ImageSrc = ""
    · simp [hrow]
    · simp [hrow]

theorem metafields_foldl_rowStep_pairwise (l : List ShopifyProductRow) :
    ∀ p : ParsedProduct,
      (p.metafields.Pairwise fun a b => a.key ≠ b.key) →
      ((l.foldl rowStep p).metafields.Pairwise fun a b => a.key ≠ b.key) := by
  induction l with
  | nil => intro p hp; exact hp
  | cons row l ih =>
    intro p hp
    rw [List.foldl_cons]
    refine ih (rowStep p row) ?_
    rw [metafields_rowStep]
    have step : ∀ (ms : List ParsedMetafield) (k v : String),
        (ms.Pairwise fun a b => a.key ≠ b.key) →
        ((addMetaIfNew ms k v).Pairwise fun a b => a.key ≠ b.key) := by
      intro ms k v hms
      unfold addMetaIfNew
      by_cases hg : v ≠ "" ∧ ¬ ms.any (fun m => m.key == k)
      · rw [if_pos hg]
        rw [List.pairwise_append]
        refine ⟨hms, List.pairwise_singleton _ _, ?_⟩
        intro a ha b hb
        simp only [List.mem_singleton] at hb
        subst hb
        intro hkey
        exact hg.2 (List.any_eq_true.mpr ⟨a, ha, by simp [hkey]⟩)
      · rw [if_neg hg]; exact hms
    exact step _ _ _ (step _ _ _ hp)

theorem metafields_foldl_rowStep_shopify (l : List ShopifyProductRow) :
    ∀ p : ParsedProduct,
      (∀ m ∈ p.metafields, m.nspace = "shopify") →
      (∀ m ∈ (l.foldl rowStep p).metafields, m.nspace = "shopify") := by
  induction l with
  | nil => intro p hp; exact hp
  | cons row l ih =>
    intro p hp
    rw [List.foldl_cons]
    refine ih (rowStep p row) ?_
    rw [metafields_rowStep]
    have step : ∀ (ms : List ParsedMetafield) (k v : String),
        (∀ m ∈ ms, m.nspace = "shopify") →
        (∀ m ∈ addMetaIfNew ms k v, m.nspace = "shopify") := by
      intro ms k v hms m hm
      unfold addMetaIfNew at hm
      by_cases hg : v ≠ "" ∧ ¬ ms.any (fun m => m.key == k)
      · rw [if_pos hg] at hm
        rcases List.mem_append.mp hm with h | h
        · exact hms m h
        · simp only [List.mem_singleton] at h; subst h; rfl
      · rw [if_neg hg] at hm; exact hms m hm
    exact step _ _ _ (step _ _ _ hp)

/-! ## Keys of the aggregation map -/

/-- The handles present in the aggregation map, in insertion order. -/
def keysOf (m : List (String × ParsedProduct)) : List String :=
  m.map Prod.fst

theorem keysOf_updateA (m : List (String × ParsedProduct)) (h : String)
    (f : ParsedProduct → ParsedProduct) : keysOf (updateA m h f) = keysOf m := by
  induction m with
  | nil => rfl
  | cons e m ih =>
    rw [updateA]
    by_cases hk : e.1 = h
    · simp [keysOf, hk]
    · simp only [hk, if_false, Bool.false_eq_true, keysOf, List.map_cons]
      exact congrArg _ ih

theorem lookupA_isSome_iff (m : List (String × ParsedProduct)) (h : String) :
    (lookupA m h).isSome = true ↔ h ∈ keysOf m := by
  induction m with
  | nil => simp [lookupA, keysOf]
  | cons e m ih =>
    rw [lookupA]
    by_cases hk : e.1 = h
    · simp [hk, keysOf]
    · simp only [hk, if_false, Bool.false_eq_true, keysOf, List.map_cons, List.mem_cons]
      rw [ih]
      constructor
      · exact Or.inr
      · rintro (h1 | h2)
        · exact absurd h1.symm hk
        · exact h2

theorem keysOf_processRow (m : List (String × ParsedProduct)) (row : ShopifyProductRow) :
    keysOf (processRow m row)
      = if row.Handle = "" ∨ row.Handle ∈ keysOf m then keysOf m
        else keysOf m ++ [row.Handle] := by
  rw [processRow]
  by_cases hempty : row.Handle = ""
  · simp [hempty]
  · rw [if_neg hempty]
    by_cases hsome : (lookupA m row.Handle).isSome
    · have hmem := (lookupA_isSome_iff m row.Handle).mp hsome
      simp only [hsome, if_true, keysOf_updateA]
      rw [if_pos (Or.inr hmem)]
    · have hmem : row.Handle ∉ keysOf m := fun hc =>
        hsome ((lookupA_isSome_iff m row.Handle).mpr hc)
      simp only [hsome, if_false, Bool.false_eq_true, keysOf_updateA]
      rw [if_neg (by rintro (h1 | h2); exact hempty h1; exact hmem h2)]
      simp [keysOf]

theorem keysOf_foldl_nodup (rows : List ShopifyProductRow) :
    ∀ m : List (String × ParsedProduct),
      (keysOf m).Nodup → (keysOf (rows.foldl processRow m)).Nodup := by
  induction rows with
  | nil => intro m hm; exact hm
  | cons row rest ih =>
    intro m hm
    rw [List.foldl_cons]
    refine ih _ ?_
    rw [keysOf_processRow]
    by_cases hc : row.Handle = "" ∨ row.Handle ∈ keysOf m
    · rw [if_pos hc]; exact hm
    · rw [if_neg hc]
      rw [List.nodup_append]
      exact ⟨hm, List.nodup_singleton _, by
        intro a ha hb
        simp only [List.mem_singleton] at hb
        exact hc (Or.inr (hb ▸ ha))⟩

theorem mem_keysOf_foldl (rows : List ShopifyProductRow) (h : String) :
    ∀ m : List (String × ParsedProduct),
      (h ∈ keysOf (rows.foldl processRow m)
        ↔ h ∈ keysOf m ∨ (h ≠ "" ∧ h ∈ rows.map ShopifyProductRow.Handle)) := by
  induction rows with
  | nil => intro m; simp
  | cons row rest ih =>
    intro m
    rw [List.foldl_cons, ih (processRow m row), keysOf_processRow]
    by_cases hc : row.Handle = "" ∨ row.Handle ∈ keysOf m
    · rw [if_pos hc]
      simp only [List.map_cons, List.mem_cons]
      constructor
      · rintro (h1 | h2)
        · exact Or.inl h1
        · exact Or.inr ⟨h2.1, Or.inr h2.2⟩
      · rintro (h1 | ⟨hne, h2 | h3⟩)
        · exact Or.inl h1
        · subst h2
          rcases hc with hc | hc
          · exact absurd hc hne
          · exact Or.inl hc
        · exact Or.inr ⟨hne, h3⟩
    · rw [if_neg hc]
      push_neg at hc
      simp only [List.mem_append, List.mem_cons, List.not_mem_nil, or_false, List.map_cons]
      constructor
      · rintro ((h1 | h2) | h3)
        · exact Or.inl h1
        · exact Or.inr ⟨h2 ▸ hc.1, Or.inl h2⟩
        · exact Or.inr ⟨h3.1, Or.inr h3.2⟩
      · rintro (h1 | ⟨hne, h2 | h3⟩)
        · exact Or.inl (Or.inl h1)
        · exact Or.inl (Or.inr h2)
        · exact Or.inr ⟨hne, h3⟩

theorem lookupA_eq_of_mem (m : List (String × ParsedProduct)) (h : String) (p : ParsedProduct)
    (hnd : (keysOf m).Nodup) (hm : (h, p) ∈ m) : lookupA m h = some p := by
  induction m with
  | nil => simp at hm
  | cons e m ih =>
    rw [lookupA]
    rcases List.mem_cons.mp hm with he | hm'
    · subst he; simp
    · have hk : e.1 ≠ h := by
        intro hc
        have : h ∈ keysOf m := List.mem_map.mpr ⟨(h, p), hm', rfl⟩
        rw [keysOf, List.map_cons, List.nodup_cons] at hnd
        exact hnd.1 (hc ▸ this)
      rw [if_neg hk]
      exact ih (by rw [keysOf, List.map_cons, List.nodup_cons] at hnd; exact hnd.2) hm'

/-! ## The image sort: permutation, sortedness, stability -/

/-- Display order of images: ascending integer position. -/
def imgLE (a b : ParsedImage) : Prop :=
  a.position ≤ b.position

instance : DecidableRel imgLE := fun a b => inferInstanceAs (Decidable (a.position ≤ b.position))

theorem insertImg_perm (a : ParsedImage) (l : List ParsedImage) :
    List.Perm (insertImg a l) (a :: l) := by
  induction l with
  | nil => rfl
  | cons b l ih =>
    rw [insertImg]
    by_cases hab : a.position ≤ b.position
    · rw [if_pos hab]
    · rw [if_neg hab]
      exact (ih.cons b).trans (List.Perm.swap a b l)

theorem sortImages_perm (l : List ParsedImage) : List.Perm (sortImages l) l := by
  induction l with
  | nil => rfl
  | cons a l ih =>
    rw [sortImages]
    exact (insertImg_perm a (sortImages l)).trans (ih.cons a)

theorem sorted_insertImg (a : ParsedImage) (l : List ParsedImage)
    (hl : l.Sorted imgLE) : (insertImg a l).Sorted imgLE := by
  induction l with
  | nil => simp [insertImg, List.Sorted]
  | cons b l ih =>
    rw [insertImg]
    by_cases hab : a.position ≤ b.position
    · rw [if_pos hab]
      refine List.Pairwise.cons ?_ hl
      intro x hx
      rcases List.mem_cons.mp hx with hx | hx
      · exact hx ▸ hab
      · exact le_trans hab (List.rel_of_sorted_cons hl x hx)
    · rw [if_neg hab]
      have hb : ∀ x ∈ insertImg a l, imgLE b x := by
        intro x hx
        rcases List.mem_cons.mp ((insertImg_perm a l).mem_iff.mp hx) with hx | hx
        · rw [hx]; exact le_of_lt (lt_of_not_le hab)
        · exact List.rel_of_sorted_cons hl x hx
      exact List.Pairwise.cons hb (ih (List.Sorted.of_cons hl))

theorem sorted_sortImages (l : List ParsedImage) : (sortImages l).Sorted imgLE := by
  induction l with
  | nil => simp [sortImages, List.Sorted]
  | cons a l ih => exact sorted_insertImg a (sortImages l) ih

theorem filter_insertImg (a : ParsedImage) (l : List ParsedImage) (q : ℤ) :
    (insertImg a l).filter (fun x => x.position == q)
      = if a.position = q then a :: l.filter (fun x => x.position == q)
        else l.filter (fun x => x.position == q) := by
  induction l with
  | nil =>
    rw [insertImg]
    by_cases haq : a.position = q <;> simp [haq]
  | cons b l ih =>
    rw [insertImg]
    by_cases hab : a.position ≤ b.position
    · rw [if_pos hab]
      by_cases haq : a.position = q <;> simp [haq, List.filter_cons]
    · rw [if_neg hab]
      rw [List.filter_cons, List.filter_cons, ih]
      by_cases haq : a.position = q
      · have hbq : (b.position == q) = false := by
          simp only [beq_eq_false_iff_ne, ne_eq]
          intro hc
          exact hab (le_of_eq (haq.trans hc.symm))
        simp [haq, hbq]
      · by_cases hbq : b.position = q <;> simp [haq, hbq]

theorem filter_sortImages (l : List ParsedImage) (q : ℤ) :
    (sortImages l).filter (fun x => x.position == q) = l.filter (fun x => x.position == q) := by
  induction l with
  | nil => rfl
  | cons a l ih =>
    rw [sortImages, filter_insertImg, List.filter_cons]
    by_cases haq : a.position = q
    · simp [haq, ih]
    · simp [haq, ih, (by simpa using haq : (a.position == q) = false)]

/-! ## Characterization of an aggregated product -/

/-- The aggregate accumulated for a handle whose matching rows are
`r :: l` (before the final image sort). -/
def aggregateOf (r : ShopifyProductRow) (l : List ShopifyProductRow) : ParsedProduct :=
  List.foldl rowStep (rowStep (initProduct r) r) l

/-- The final image sort applied to one aggregate. -/
def finishProduct (p : ParsedProduct) : ParsedProduct :=
  { p with images := sortImages p.images }

theorem keysOf_groupProductData (rows : List ShopifyProductRow) :
    keysOf (groupProductData rows) = keysOf (rows.foldl processRow []) := by
  unfold groupProductData keysOf
  rw [List.map_map]
  rfl

theorem groupProductData_char (rows : List ShopifyProductRow) (h : String) (p : ParsedProduct)
    (hmem : (h, p) ∈ groupProductData rows) :
    h ≠ "" ∧ ∃ r l, rows.filter (fun x => x.Handle == h) = r :: l ∧ p = finishProduct (aggregateOf r l) := by
  unfold groupProductData at hmem
  rcases List.mem_map.mp hmem with ⟨e, he, hge⟩
  have h1 : e.1 = h := congrArg Prod.fst hge
  have h2 : p = { e.2 with images := sortImages e.2.images } := (congrArg Prod.snd hge).symm
  have hkeys : h ∈ keysOf (rows.foldl processRow []) :=
    List.mem_map.mpr ⟨e, he, h1⟩
  have hne : h ≠ "" := by
    rcases (mem_keysOf_foldl rows h []).mp hkeys with hc | hc
    · simp [keysOf] at hc
    · exact hc.1
  have hnd : (keysOf (rows.foldl processRow [])).Nodup :=
    keysOf_foldl_nodup rows [] (by simp [keysOf])
  have hep : (h, e.2) ∈ rows.foldl processRow [] := by
    have : e = (h, e.2) := by rw [← h1]
    exact this ▸ he
  have hlook : lookupA (rows.foldl processRow []) h = some e.2 :=
    lookupA_eq_of_mem _ _ _ hnd hep
  rw [lookupA_foldl rows h hne []] at hlook
  cases hfilter : rows.filter (fun x => x.Handle == h) with
  | nil =>
    rw [hfilter] at hlook
    simp [lookupA] at hlook
  | cons r l =>
    rw [hfilter] at hlook
    simp only [lookupA] at hlook
    refine ⟨hne, r, l, rfl, ?_⟩
    rw [h2]
    unfold finishProduct aggregateOf
    rw [Option.some_inj.mp hlook]

theorem variants_finishProduct (p : ParsedProduct) :
    (finishProduct p).variants = p.variants := rfl

theorem metafields_finishProduct (p : ParsedProduct) :
    (finishProduct p).metafields = p.metafields := rfl

theorem images_finishProduct (p : ParsedProduct) :
    (finishProduct p).images = sortImages p.images := rfl

theorem prodFields_finishProduct (p : ParsedProduct) :
    prodFields (finishProduct p) = prodFields p := rfl

theorem variants_aggregateOf (r : ShopifyProductRow) (l : List ShopifyProductRow) :
    (aggregateOf r l).variants
      = keepFirstBy varKey (((r :: l).filter rowHasVariant).map mkVariant) := by
  unfold aggregateOf
  rw [variants_foldl_rowStep, variants_rowStep, ← foldl_pushIfNewKey_nil, List.filter_cons]
  by_cases hr : rowHasVariant r
  · simp only [hr, if_true, List.map_cons, List.foldl_cons]
    rfl
  · simp only [hr, if_false, Bool.false_eq_true]
    rfl

theorem images_aggregateOf (r : ShopifyProductRow) (l : List ShopifyProductRow) :
    (aggregateOf r l).images
      = keepFirstBy imgKey (((r :: l).filter (fun x => x.ImageSrc ≠ "")).map mkImage) := by
  unfold aggregateOf
  rw [images_foldl_rowStep, images_rowStep, ← foldl_pushIfNewKey_nil, List.filter_cons]
  by_cases hr : r.ImageSrc = ""
  · simp [hr]
    rfl
  · simp only [hr, ne_eq, not_false_eq_true, if_true, decide_True, List.map_cons, List.foldl_cons]
    rfl

theorem processRow_empty_handle (m : List (String × ParsedProduct)) (row : ShopifyProductRow)
    (hrow : row.Handle = "") : processRow m row = m := by
  simp [processRow, hrow]

theorem foldl_processRow_filter_ne_empty (rows : List ShopifyProductRow) :
    ∀ m, (rows.filter (fun r => r.Handle ≠ "")).foldl processRow m = rows.foldl processRow m := by
  induction rows with
  | nil => intro m; rfl
  | cons row rest ih =>
    intro m
    rw [List.filter_cons]
    by_cases hrow : row.Handle = ""
    · simp only [hrow, ne_eq, not_true_eq_false, decide_False, List.foldl_cons,
        processRow_empty_handle m row hrow]
      exact ih m
    · simp only [hrow, ne_eq, not_false_eq_true, decide_True, List.foldl_cons]
      exact ih (processRow m row)

theorem groupProductData_filter_ne_empty (rows : List ShopifyProductRow) :
    groupProductData (rows.filter (fun r => r.Handle ≠ "")) = groupProductData rows := by
  unfold groupProductData
  rw [foldl_processRow_filter_ne_empty]

theorem parseFloatM_empty : parseFloatM "" = none := by decide

theorem rowHasVariant_iff (r : ShopifyProductRow) :
    rowHasVariant r = true ↔ ∃ q, parseFloatM r.VariantPrice = some q ∧ 0 < q := by
  unfold rowHasVariant
  constructor
  · intro hr
    rw [Bool.and_eq_true] at hr
    rcases hr with ⟨-, h2⟩
    cases hp : parseFloatM r.VariantPrice with
    | none => rw [hp] at h2; simp at h2
    | some q =>
      rw [hp] at h2
      exact ⟨q, rfl, of_decide_eq_true h2⟩
  · rintro ⟨q, hq, hpos⟩
    have hne : r.VariantPrice ≠ "" := by
      intro hc
      rw [hc, parseFloatM_empty] at hq
      exact Option.noConfusion hq
    rw [Bool.and_eq_true]
    exact ⟨decide_eq_true hne, by rw [hq]; exact decide_eq_true hpos⟩

/-! ## Concrete rows used by witnesses and counterexamples -/

/-- A CSV row with every column empty. -/
def blankRow : ShopifyProductRow :=
  ⟨"", "", "", "", "", "", "", "", "", "", "", "", "", "", "", "", "", "", "", "", "", "", "", ""⟩

/-- First row of handle `h1`, title `A`. -/
def rowT1 : ShopifyProductRow :=
  { blankRow with Handle := "h1", Title := "A" }

/-- Second row of handle `h1`, title `B`. -/
def rowT2 : ShopifyProductRow :=
  { blankRow with Handle := "h1", Title := "B" }

/-- The aggregate the parser produces for `[rowT1, rowT2]`. -/
def prodT1 : ParsedProduct :=
  { handle := "h1", title := "A", bodyHtml := "", vendor := "", productCategory := "",
    type := "", tags := [], published := false, seoTitle := "", seoDescription := "",
    status := .active, variants := [], images := [], metafields := [] }

/-- A variant-bearing row of the spec's worked example. -/
def rowM1 : ShopifyProductRow :=
  { blankRow with
      Handle := "mug-1"
      Title := "Mug"
      VariantPrice := "10"
      VariantSKU := "M1"
      Option1Value := "Red" }

/-- The duplicate variant row (same SKU and option value) of the example. -/
def rowM2 : ShopifyProductRow :=
  { blankRow with
      Handle := "mug-1"
      VariantPrice := "10"
      VariantSKU := "M1"
      Option1Value := "Red" }

/-- An image row with position 2. -/
def rowM3 : ShopifyProductRow :=
  { blankRow with Handle := "mug-1", ImageSrc := "a.png", ImagePosition := "2" }

/-- An image row with position 1. -/
def rowM4 : ShopifyProductRow :=
  { blankRow with Handle := "mug-1", ImageSrc := "b.png", ImagePosition := "1" }

/-- The aggregate of the four example rows: one variant, images sorted `b, a`. -/
def prodMug : ParsedProduct :=
  { handle := "mug-1", title := "Mug", bodyHtml := "", vendor := "", productCategory := "",
    type := "", tags := [], published := false, seoTitle := "", seoDescription := "",
    status := .active,
    variants := [⟨"Red", some "M1", 10, none, none, 0, none, some "Red"⟩],
    images := [⟨"b.png", none, 1⟩, ⟨"a.png", none, 2⟩],
    metafields := [] }

/-! ## Claims C1, C2, C9, C10: the Product Aggregator -/

/-- C1 (counterexample): the aggregator's output content is NOT invariant
under permutation of the input rows — product-level fields are taken from
the first row of each handle, so swapping two rows of the same handle with
different titles changes the aggregated title. -/
theorem C1_groupProductData_not_permutation_invariant :
    List.Perm [rowT1, rowT2] [rowT2, rowT1]
      ∧ groupProductData [rowT1, rowT2] ≠ groupProductData [rowT2, rowT1] :=
  ⟨List.Perm.swap rowT2 rowT1 [], by decide⟩

/-- C1 (amended): re-running the aggregator on the same rows in the same
order yields identical output; there is exactly one aggregated record per
distinct non-empty Handle; and every aggregated record's images are sorted
ascending by position.  (The content of a record is not permutation
invariant: it depends on the input order of rows sharing the handle.) -/
theorem C1_groupProductData_deterministic_one_record_per_handle
    (rows : List ShopifyProductRow) :
    groupProductData rows = groupProductData rows
      ∧ (keysOf (groupProductData rows)).Nodup
      ∧ (∀ h, h ∈ keysOf (groupProductData rows)
          ↔ h ≠ "" ∧ h ∈ rows.map ShopifyProductRow.Handle)
      ∧ (∀ h p, (h, p) ∈ groupProductData rows → p.images.Sorted imgLE) := by
  refine ⟨rfl, ?_, ?_, ?_⟩
  · rw [keysOf_groupProductData]
    exact keysOf_foldl_nodup rows [] (by simp [keysOf])
  · intro h
    rw [keysOf_groupProductData, mem_keysOf_foldl]
    simp [keysOf]
  · intro h p hmem
    obtain ⟨-, r, l, -, hp⟩ := groupProductData_char rows h p hmem
    rw [hp, images_finishProduct]
    exact sorted_sortImages _

/-- Witness for C1 (amended) at the two-row example. -/
theorem C1_amended_witness : prodT1.images.Sorted imgLE :=
  (C1_groupProductData_deterministic_one_record_per_handle [rowT1, rowT2]).2.2.2
    "h1" prodT1 (by decide)

/-- C2: in every aggregated product no two variants share both SKU and
primary option value; the variants kept are exactly the first occurrence of
each (SKU, option value) among the handle's variant-bearing rows in input
order; and a row bears a variant precisely when its `Variant Price` parses
to a number strictly greater than zero. -/
theorem C2_no_duplicate_variants (rows : List ShopifyProductRow) :
    ∀ h p, (h, p) ∈ groupProductData rows →
      (p.variants.Pairwise fun v w => ¬(v.sku = w.sku ∧ v.option1Value = w.option1Value))
      ∧ p.variants
          = keepFirstBy varKey
              ((rows.filter (fun r => r.Handle == h && rowHasVariant r)).map mkVariant)
      ∧ (∀ r : ShopifyProductRow,
          rowHasVariant r = true ↔ ∃ q, parseFloatM r.VariantPrice = some q ∧ 0 < q) := by
  intro h p hmem
  obtain ⟨-, r, l, hfilter, hp⟩ := groupProductData_char rows h p hmem
  have hcomb : (rows.filter (fun x => x.Handle == h)).filter rowHasVariant
      = rows.filter (fun x => x.Handle == h && rowHasVariant x) := by
    rw [List.filter_filter]
    exact List.filter_congr (fun x _ => Bool.and_comm _ _)
  have hv : p.variants
      = keepFirstBy varKey
          ((rows.filter (fun x => x.Handle == h && rowHasVariant x)).map mkVariant) := by
    rw [hp, variants_finishProduct, variants_aggregateOf, ← hfilter, hcomb]
  refine ⟨?_, hv, fun r => rowHasVariant_iff r⟩
  rw [hv]
  refine (keepFirstBy_pairwise varKey _).imp ?_
  intro a b hk hc
  exact hk (by rw [varKey, varKey, hc.1, hc.2])

/-- Witness for C2 at the spec's worked example: the duplicate variant row
is suppressed, one variant remains. -/
theorem C2_witness :
    (prodMug.variants.Pairwise fun v w => ¬(v.sku = w.sku ∧ v.option1Value = w.option1Value))
      ∧ prodMug.variants
          = keepFirstBy varKey
              (([rowM1, rowM2, rowM3, rowM4].filter
                  (fun r => r.Handle == "mug-1" && rowHasVariant r)).map mkVariant)
      ∧ (∀ r : ShopifyProductRow,
          rowHasVariant r = true ↔ ∃ q, parseFloatM r.VariantPrice = some q ∧ 0 < q) :=
  C2_no_duplicate_variants [rowM1, rowM2, rowM3, rowM4] "mug-1" prodMug (by decide)

/-- C9: in every aggregated product no two images share a source URL, the
image list is sorted ascending by position, and for each position value the
images carrying it appear in first-seen input order (stability): filtering
the final list at any position gives exactly the first-occurrence-deduped
accumulation of that handle's image rows, filtered at that position. -/
theorem C9_images_dedup_sorted_stable (rows : List ShopifyProductRow) :
    ∀ h p, (h, p) ∈ groupProductData rows →
      (p.images.map imgKey).Nodup
      ∧ p.images.Sorted imgLE
      ∧ ∀ q : ℤ, p.images.filter (fun i => i.position == q)
          = (keepFirstBy imgKey
              ((rows.filter (fun r => r.Handle == h && r.ImageSrc ≠ "")).map mkImage)).filter
                (fun i => i.position == q) := by
  intro h p hmem
  obtain ⟨-, r, l, hfilter, hp⟩ := groupProductData_char rows h p hmem
  have hcomb : (rows.filter (fun x => x.Handle == h)).filter (fun x => x.ImageSrc ≠ "")
      = rows.filter (fun x => x.Handle == h && x.ImageSrc ≠ "") := by
    rw [List.filter_filter]
    exact List.filter_congr (fun x _ => Bool.and_comm _ _)
  have hacc : (aggregateOf r l).images
      = keepFirstBy imgKey
          ((rows.filter (fun x => x.Handle == h && x.ImageSrc ≠ "")).map mkImage) := by
    rw [images_aggregateOf, ← hfilter, hcomb]
  have himg : p.images = sortImages (aggregateOf r l).images := by
    rw [hp, images_finishProduct]
  refine ⟨?_, ?_, ?_⟩
  · rw [himg]
    have hpair : ((aggregateOf r l).images).Pairwise (fun a b => imgKey a ≠ imgKey b) := by
      rw [hacc]; exact keepFirstBy_pairwise _ _
    have hnd : ((aggregateOf r l).images.map imgKey).Nodup := List.pairwise_map.mpr hpair
    exact (((sortImages_perm _).map imgKey).symm).nodup hnd
  · rw [himg]
    exact sorted_sortImages _
  · intro q
    rw [himg, filter_sortImages, hacc]

/-- Witness for C9 at the spec's worked example: image `b.png` (position 1)
precedes `a.png` (position 2). -/
theorem C9_witness :
    (prodMug.images.map imgKey).Nodup
      ∧ prodMug.images.Sorted imgLE
      ∧ ∀ q : ℤ, prodMug.images.filter (fun i => i.position == q)
          = (keepFirstBy imgKey
              (([rowM1, rowM2, rowM3, rowM4].filter
                  (fun r => r.Handle == "mug-1" && r.ImageSrc ≠ "")).map mkImage)).filter
                (fun i => i.position == q) :=
  C9_images_dedup_sorted_stable [rowM1, rowM2, rowM3, rowM4] "mug-1" prodMug (by decide)

/-- C10: the product-level fields of an aggregated product are exactly those
derived from the first row (in input order) bearing its handle, and rows
with an empty Handle contribute nothing to the output. -/
theorem C10_product_fields_first_row_wins (rows : List ShopifyProductRow) :
    (∀ h p, (h, p) ∈ groupProductData rows →
        ∃ r l, rows.filter (fun x => x.Handle == h) = r :: l
          ∧ prodFields p = prodFields (initProduct r))
      ∧ groupProductData (rows.filter (fun r => r.Handle ≠ "")) = groupProductData rows := by
  constructor
  · intro h p hmem
    obtain ⟨-, r, l, hfilter, hp⟩ := groupProductData_char rows h p hmem
    refine ⟨r, l, hfilter, ?_⟩
    rw [hp, prodFields_finishProduct]
    unfold aggregateOf
    rw [prodFields_foldl_rowStep, prodFields_rowStep]
  · exact groupProductData_filter_ne_empty rows

/-- Witness for C10: with two rows of handle `h1` (titles `A` then `B`),
the aggregate carries the first row's fields. -/
theorem C10_witness :
    ∃ r l, [rowT1, rowT2].filter (fun x => x.Handle == "h1") = r :: l
      ∧ prodFields prodT1 = prodFields (initProduct r) :=
  (C10_product_fields_first_row_wins [rowT1, rowT2]).1 "h1" prodT1 (by decide)

/-! ## The persisted store (Prisma schema projection)

The database is modelled as explicit lists of rows.  Generated ObjectIds
become sequential numeric ids drawn from `nextId`; child rows (variants,
images, metafields, order items), whose own ids are never read by the
sources, are modelled without an id column.  `createdAt`/`updatedAt`
timestamps are outside the model. -/

/-- Embeds `model Category`. -/
structure Category where
  id : Nat
  name : String
  slug : String
  shopifyCategory : String
  parentId : Option Nat
  level : Nat
  deriving DecidableEq, Repr

/-- Embeds `model Product` (the fields the migration and webhook code writes). -/
structure DbProduct where
  id : Nat
  handle : String
  title : String
  bodyHtml : String
  vendor : String
  productType : String
  tags : List String
  published : Bool
  seoTitle : String
  seoDescription : String
  status : String
  categoryId : Option Nat
  name : String
  description : String
  imageUrl : Option String
  price : ℚ
  compareAtPrice : Option ℚ
  costPerItem : Option ℚ
  stock : ℤ
  deriving DecidableEq, Repr

/-- Embeds `model ProductVariant`. -/
structure DbVariant where
  productId : Nat
  title : String
  sku : Option String
  price : ℚ
  compareAtPrice : Option ℚ
  costPerItem : Option ℚ
  inventoryQty : ℤ
  weight : Option ℚ
  option1Value : Option String
  deriving DecidableEq, Repr

/-- Embeds `model ProductImage`. -/
structure DbImage where
  productId : Nat
  src : String
  altText : Option String
  position : ℤ
  deriving DecidableEq, Repr

/-- Embeds `model ProductMetafield` (`namespace` column rendered as `nspace`). -/
structure DbMetafield where
  productId : Nat
  nspace : String
  key : String
  value : String
  type : String
  deriving DecidableEq, Repr

/-- Embeds `model User` (the fields the customer sync writes). -/
structure DbUser where
  id : Nat
  email : String
  password : String
  firstName : String
  lastName : String
  phone : String
  shopifyCustomerId : Option String
  acceptsMarketing : Bool
  totalSpent : ℚ
  orderCount : ℤ
  verifiedEmail : Bool
  address : String
  deriving DecidableEq, Repr

/-- Embeds `model Order` (the fields the order sync writes). -/
structure DbOrder where
  id : Nat
  userId : Option Nat
  customerEmail : String
  status : String
  totalAmount : ℚ
  shopifyOrderId : Option String
  shopifyOrderName : String
  financialStatus : Option String
  fulfillmentStatus : Option String
  currency : String
  subtotalPrice : ℚ
  totalTax : ℚ
  shippingPrice : ℚ
  totalDiscounts : ℚ
  billingAddress : String
  shippingAddress : String
  deriving DecidableEq, Repr

/-- Embeds `model OrderItem`. -/
structure DbOrderItem where
  orderId : Nat
  productName : String
  quantity : ℤ
  price : ℚ
  sku : Option String
  shopifyVariantId : Option String
  shopifyProductId : Option String
  deriving DecidableEq, Repr

/-- The whole persisted store. -/
structure Db where
  categories : List Category
  products : List DbProduct
  variants : List DbVariant
  images : List DbImage
  metafields : List DbMetafield
  users : List DbUser
  orders : List DbOrder
  orderItems : List DbOrderItem
  nextId : Nat
  deriving DecidableEq, Repr

/-- An empty store. -/
def emptyDb : Db :=
  ⟨[], [], [], [], [], [], [], [], 0⟩

/-! ## Webhook payloads (the fields the handlers read from `data: any`) -/

/-- One element of `data.variants`.  `v.inventory_quantity || 0` collapses a
missing quantity to `0`, which the model folds into the field itself. -/
structure PayloadVariant where
  price : ℚ
  inventory_quantity : ℤ
  deriving DecidableEq, Repr

/-- One element of `data.images`. -/
structure PayloadImage where
  src : String
  deriving DecidableEq, Repr

/-- A `products/\*` webhook payload. -/
structure ProductPayload where
  id : Nat
  handle : String
  title : String
  body_html : String
  vendor : String
  product_type : String
  tags : List String
  published_at : Option String
  status : Option String
  images : List PayloadImage
  variants : List PayloadVariant
  deriving DecidableEq, Repr

/-- A Shopify address object. -/
structure PayloadAddress where
  name : Option String
  address1 : Option String
  address2 : Option String
  city : Option String
  province : Option String
  country : Option String
  zip : Option String
  deriving DecidableEq, Repr

/-- A `customers/\*` webhook payload. -/
structure CustomerPayload where
  id : Nat
  email : String
  first_name : Option String
  last_name : Option String
  phone : Option String
  accepts_marketing : Option Bool
  total_spent : Option String
  orders_count : Option String
  verified_email : Option Bool
  default_address : Option PayloadAddress
  deriving DecidableEq, Repr

/-- One element of `data.line_items`. -/
structure PayloadLineItem where
  name : String
  quantity : ℤ
  price : String
  sku : Option String
  variant_id : Option Nat
  product_id : Option Nat
  deriving DecidableEq, Repr

/-- An `orders/\*` webhook payload (`total_shipping_price_set?.shop_money?.amount`
flattened into one optional field). -/
structure OrderPayload where
  id : Nat
  email : String
  name : String
  financial_status : Option String
  fulfillment_status : Option String
  currency : String
  total_price : Option String
  subtotal_price : Option String
  total_tax : Option String
  total_discounts : Option String
  shipping_amount : Option String
  billing_address : Option PayloadAddress
  shipping_address : Option PayloadAddress
  line_items : List PayloadLineItem
  deriving DecidableEq, Repr

/-! ## JS helpers shared by the handlers and the migrator -/

/-- JS `s.substring(0, n)`. -/
def jsSubstring (s : String) (n : Nat) : String :=
  ⟨s.data.take n⟩

/-- JS `s.replace(/<[^>]*>/g, '')`: drop every `<...>` tag (an unterminated
`<` matches nothing and the remainder is kept verbatim). -/
def stripTagsAux : List Char → List Char
  | [] => []
  | c :: rest =>
    if c = '<' then
      match hdrop : rest.dropWhile (fun d => d ≠ '>') with
      | [] => c :: rest
      | _ :: after => stripTagsAux after
    else c :: stripTagsAux rest
termination_by l => l.length
decreasing_by
  · have h1 : (rest.dropWhile (fun d => d ≠ '>')).length ≤ rest.length :=
      (List.dropWhile_sublist _).length_le
    rw [hdrop] at h1
    simp only [List.length_cons] at h1 ⊢
    omega
  · simp

/-- Embeds `stripHtml` of the migrator: strip tags, then trim (empty body passes
through). -/
def stripHtml (html : String) : String :=
  if html = "" then "" else (String.mk (stripTagsAux html.data)).trim

/-- Embeds `data.status?.toUpperCase() || 'ACTIVE'`. -/
def statusOr (st : Option String) : String :=
  match st with
  | none => "ACTIVE"
  | some s => if s.toUpper = "" then "ACTIVE" else s.toUpper

/-- Embeds `productData.status.toUpperCase()` for the three parser statuses. -/
def statusToUpper : PStatus → String
  | .active => "ACTIVE"
  | .draft => "DRAFT"
  | .archived => "ARCHIVED"

/-- Embeds `parseFloat(x || '0')` on an optional money string (`NaN`, which the
claims never exercise, collapses to `0`). -/
def parseMoney (s : Option String) : ℚ :=
  (parseFloatM (s.getD "0")).getD 0

/-- Embeds `parseInt(x || '0')` on an optional count string. -/
def parseCount (s : Option String) : ℤ :=
  (parseIntM (s.getD "0")).getD 0

/-- Embeds `formatAddress`: join the present, non-empty parts with `, `. -/
def formatAddress : Option PayloadAddress → String
  | none => ""
  | some a =>
    jsJoin ", "
      (([a.name, a.address1, a.address2, a.city, a.province, a.country, a.zip].filterMap id).filter
        (fun s => s ≠ ""))

/-! ## `webhook-handlers.ts`: product handlers -/

/-- Embeds `prisma.product.findFirst({ where: { handle } })`. -/
def findProductByHandle (db : Db) (handle : String) : Option DbProduct :=
  db.products.find? (fun p => p.handle == handle)

/-- The product row written by `handleProductCreate`. -/
def webhookProductRow (pid : Nat) (d : ProductPayload) : DbProduct where
  id := pid
  handle := d.handle
  title := d.title
  bodyHtml := d.body_html
  vendor := d.vendor
  productType := d.product_type
  tags := d.tags
  published := d.published_at.isSome
  seoTitle := d.title
  seoDescription := jsSubstring d.body_html 160
  status := statusOr d.status
  categoryId := none
  name := d.title
  description := jsSubstring (String.mk (stripTagsAux d.body_html.data)) 500
  imageUrl := (d.images.head?).map (fun i => i.src)
  price := jsNumOr ((d.variants.head?).map (fun v => v.price)) 0
  compareAtPrice := none
  costPerItem := none
  stock := d.variants.foldl (fun sum v => sum + v.inventory_quantity) 0

/-- The `prisma.product.create` of `handleProductCreate`. -/
def insertWebhookProduct (db : Db) (d : ProductPayload) : Db :=
  { db with
    products := db.products ++ [webhookProductRow db.nextId d]
    nextId := db.nextId + 1 }

/-- The field updates of `handleProductUpdate`'s `prisma.product.update`
applied to the existing row (`updatedAt` is outside the model). -/
def applyWebhookProductUpdate (p : DbProduct) (d : ProductPayload) : DbProduct :=
  { p with
    title := d.title
    bodyHtml := d.body_html
    vendor := d.vendor
    productType := d.product_type
    tags := d.tags
    published := d.published_at.isSome
    seoTitle := d.title
    seoDescription := jsSubstring d.body_html 160
    status := statusOr d.status
    name := d.title
    description := jsSubstring (String.mk (stripTagsAux d.body_html.data)) 500
    imageUrl := (d.images.head?).map (fun i => i.src)
    price := jsNumOr ((d.variants.head?).map (fun v => v.price)) 0
    stock := d.variants.foldl (fun sum v => sum + v.inventory_quantity) 0 }

/-- Embeds `prisma.product.update({ where: { id } , data })` on the products table. -/
def updateProductRow (db : Db) (pid : Nat) (d : ProductPayload) : Db :=
  { db with
    products := db.products.map (fun p => if p.id = pid then applyWebhookProductUpdate p d else p) }

/-- Embeds `handleProductUpdate`: update the row found by handle; if the product
does not exist, fall back to `handleProductCreate` (whose own existence
re-check still finds nothing on the same state, so it creates). -/
def handleProductUpdate (db : Db) (d : ProductPayload) : Db :=
  match findProductByHandle db d.handle with
  | some p => updateProductRow db p.id d
  | none => insertWebhookProduct db d

/-- Embeds `handleProductCreate`: create unless the handle exists, in which case
"updating instead" — `handleProductUpdate`, which finds the same row on the
same state and updates it. -/
def handleProductCreate (db : Db) (d : ProductPayload) : Db :=
  match findProductByHandle db d.handle with
  | some p => updateProductRow db p.id d
  | none => insertWebhookProduct db d

/-- Embeds `handleProductDelete`: soft delete by setting status to `ARCHIVED`. -/
def handleProductDelete (db : Db) (d : ProductPayload) : Db :=
  match findProductByHandle db d.handle with
  | none => db
  | some p =>
    { db with
      products := db.products.map (fun q => if q.id = p.id then { q with status := "ARCHIVED" } else q) }

/-! ## `webhook-handlers.ts`: customer handlers -/

/-- Embeds `prisma.user.findUnique({ where: { email } })`. -/
def findUserByEmail (db : Db) (email : String) : Option DbUser :=
  db.users.find? (fun u => u.email == email)

/-- The user row written by `handleCustomerCreate`; `hashedPw` stands for
`bcrypt.hash('shopify-migration-temp', 10)`, an effectful external
primitive passed in as a parameter. -/
def webhookUserRow (uid : Nat) (hashedPw : String) (d : CustomerPayload) : DbUser where
  id := uid
  email := d.email
  password := hashedPw
  firstName := d.first_name.getD ""
  lastName := d.last_name.getD ""
  phone := d.phone.getD ""
  shopifyCustomerId := some (toString d.id)
  acceptsMarketing := d.accepts_marketing.getD false
  totalSpent := parseMoney d.total_spent
  orderCount := parseCount d.orders_count
  verifiedEmail := d.verified_email.getD false
  address := formatAddress d.default_address

/-- Embeds `handleCustomerCreate`: create unless a user with the email exists. -/
def handleCustomerCreate (hashedPw : String) (db : Db) (d : CustomerPayload) : Db :=
  match findUserByEmail db d.email with
  | some _ => db
  | none =>
    { db with
      users := db.users ++ [webhookUserRow db.nextId hashedPw d]
      nextId := db.nextId + 1 }

/-- The field updates of `handleCustomerUpdate`'s `prisma.user.update`. -/
def applyWebhookCustomerUpdate (u : DbUser) (d : CustomerPayload) : DbUser :=
  { u with
    firstName := d.first_name.getD ""
    lastName := d.last_name.getD ""
    phone := d.phone.getD ""
    acceptsMarketing := d.accepts_marketing.getD false
    totalSpent := parseMoney d.total_spent
    orderCount := parseCount d.orders_count
    verifiedEmail := d.verified_email.getD false
    address := formatAddress d.default_address }

/-- Embeds `handleCustomerUpdate`: update the user found by email; if absent, fall
back to `handleCustomerCreate` (whose own re-check on the same state still
finds nothing, so it creates). -/
def handleCustomerUpdate (hashedPw : String) (db : Db) (d : CustomerPayload) : Db :=
  match findUserByEmail db d.email with
  | some u =>
    { db with
      users := db.users.map (fun v => if v.id = u.id then applyWebhookCustomerUpdate v d else v) }
  | none => handleCustomerCreate hashedPw db d

/-! ## `webhook-handlers.ts`: order handlers -/

/-- Embeds `prisma.order.findFirst({ where: { shopifyOrderId } })`. -/
def findOrderByShopifyId (db : Db) (sid : String) : Option DbOrder :=
  db.orders.find? (fun o => o.shopifyOrderId == some sid)

/-- Embeds `statusMapping[data.financial_status] || 'PENDING'`. -/
def mapFinancialStatus (fs : Option String) : String :=
  match fs with
  | some "pending" => "PENDING"
  | some "paid" => "CONFIRMED"
  | some "partially_paid" => "PENDING"
  | some "refunded" => "CANCELLED"
  | some "voided" => "CANCELLED"
  | some "authorized" => "PENDING"
  | _ => "PENDING"

/-- The order row written by `handleOrderCreate`. -/
def webhookOrderRow (oid : Nat) (userId : Option Nat) (d : OrderPayload) : DbOrder where
  id := oid
  userId := userId
  customerEmail := d.email
  status := mapFinancialStatus d.financial_status
  totalAmount := parseMoney d.total_price
  shopifyOrderId := some (toString d.id)
  shopifyOrderName := d.name
  financialStatus := d.financial_status
  fulfillmentStatus := d.fulfillment_status
  currency := d.currency
  subtotalPrice := parseMoney d.subtotal_price
  totalTax := parseMoney d.total_tax
  shippingPrice := parseMoney d.shipping_amount
  totalDiscounts := parseMoney d.total_discounts
  billingAddress := formatAddress d.billing_address
  shippingAddress := formatAddress d.shipping_address

/-- One `prisma.orderItem.create` row. -/
def webhookOrderItemRow (oid : Nat) (li : PayloadLineItem) : DbOrderItem where
  orderId := oid
  productName := li.name
  quantity := li.quantity
  price := (parseFloatM li.price).getD 0
  sku := li.sku
  shopifyVariantId := li.variant_id.map toString
  shopifyProductId := li.product_id.map toString

/-- Embeds `handleOrderCreate`: skip if the Shopify order id exists; otherwise
create the order and its line items. -/
def handleOrderCreate (db : Db) (d : OrderPayload) : Db :=
  match findOrderByShopifyId db (toString d.id) with
  | some _ => db
  | none =>
    let user := findUserByEmail db d.email
    let oid := db.nextId
    { db with
      orders := db.orders ++ [webhookOrderRow oid (user.map (fun u => u.id)) d]
      orderItems := db.orderItems ++ d.line_items.map (webhookOrderItemRow oid)
      nextId := db.nextId + 1 }

/-- The field updates of `handleOrderUpdate`'s `prisma.order.update`. -/
def applyWebhookOrderUpdate (o : DbOrder) (d : OrderPayload) : DbOrder :=
  { o with
    status := mapFinancialStatus d.financial_status
    totalAmount := parseMoney d.total_price
    financialStatus := d.financial_status
    fulfillmentStatus := d.fulfillment_status
    subtotalPrice := parseMoney d.subtotal_price
    totalTax := parseMoney d.total_tax
    shippingPrice := parseMoney d.shipping_amount
    totalDiscounts := parseMoney d.total_discounts }

/-- Embeds `handleOrderUpdate`: update the order found by Shopify id; if absent,
fall back to `handleOrderCreate` (whose own re-check still finds nothing,
so it creates). -/
def handleOrderUpdate (db : Db) (d : OrderPayload) : Db :=
  match findOrderByShopifyId db (toString d.id) with
  | some o =>
    { db with
      orders := db.orders.map (fun p => if p.id = o.id then applyWebhookOrderUpdate p d else p) }
  | none => handleOrderCreate db d

/-! ## `route.ts`: the webhook endpoint -/

/-- An incoming POST request: signature header, topic header, raw body. -/
structure WebhookRequest where
  hmacHeader : Option String
  topic : Option String
  body : String

/-- Embeds `crypto.timingSafeEqual(Buffer.from(a), Buffer.from(b))`: throws when
the byte lengths differ, otherwise compares contents. -/
def timingSafeEqualM (a b : String) : Except Unit Bool :=
  if a.utf8ByteSize ≠ b.utf8ByteSize then Except.error () else Except.ok (a = b)

/-- Embeds `verifyShopifyWebhook`: missing header fails verification; otherwise a
constant-time comparison of the header against the keyed digest of the raw
body (`hmac secret body` stands for the base64 HMAC-SHA256 primitive). -/
def verifyShopifyWebhook (hmac : String → String → String) (req : WebhookRequest)
    (body secret : String) : Except Unit Bool :=
  match req.hmacHeader with
  | none => Except.ok false
  | some h => timingSafeEqualM h (hmac secret body)

/-- A parsed JSON body, viewed under each entity schema the topic dispatch
may select (`data : any` in the source). -/
structure WebhookData where
  product : ProductPayload
  order : OrderPayload
  customer : CustomerPayload

/-- The `POST` route: verify the signature on the raw body, then parse and
dispatch by topic; thrown errors (length-mismatched signature, JSON parse
failure) are caught and answered with 500.  Returns (status, state). -/
def webhookPOST (hmac : String → String → String) (parse : String → Except Unit WebhookData)
    (hashedPw : String) (secret : String) (req : WebhookRequest) (db : Db) : Nat × Db :=
  match verifyShopifyWebhook hmac req req.body secret with
  | Except.error _ => (500, db)
  | Except.ok false => (401, db)
  | Except.ok true =>
    match parse req.body with
    | Except.error _ => (500, db)
    | Except.ok data =>
      match req.topic with
      | some "products/create" => (200, handleProductCreate db data.product)
      | some "products/update" => (200, handleProductUpdate db data.product)
      | some "products/delete" => (200, handleProductDelete db data.product)
      | some "orders/create" => (200, handleOrderCreate db data.order)
      | some "orders/updated" => (200, handleOrderUpdate db data.order)
      | some "orders/paid" => (200, handleOrderUpdate db data.order)
      | some "orders/cancelled" => (200, handleOrderUpdate db data.order)
      | some "orders/fulfilled" => (200, handleOrderUpdate db data.order)
      | some "customers/create" => (200, handleCustomerCreate hashedPw db data.customer)
      | some "customers/update" => (200, handleCustomerUpdate hashedPw db data.customer)
      | _ => (200, db)

/-! ## `migrate-products.ts`: the Product Migrator -/

/-- Embeds `prisma.category.findFirst({ where: { shopifyCategory } })`. -/
def findCategoryByPath (cats : List Category) (path : String) : Option Category :=
  cats.find? (fun c => c.shopifyCategory == path)

/-- Embeds `generateSlug` helpers: the characters `[a-z0-9]` kept by the slug. -/
def isSlugChar (c : Char) : Bool :=
  ('a' ≤ c ∧ c ≤ 'z') ∨ ('0' ≤ c ∧ c ≤ '9')

/-- Collapse runs of `-` (the image of `/[^a-z0-9]+/g`) into one. -/
def squashDashes : List Char → List Char
  | [] => []
  | [c] => [c]
  | a :: b :: rest =>
    if a = '-' ∧ b = '-' then squashDashes (b :: rest) else a :: squashDashes (b :: rest)

/-- Embeds `generateSlug`: lowercase, non-alphanumeric runs to `-`, trim `-`. -/
def generateSlug (name : String) : String :=
  let mapped := (name.data.map Char.toLower).map (fun c => if isSlugChar c then c else '-')
  let trimmed :=
    (((squashDashes mapped).dropWhile (fun c => c = '-')).reverse.dropWhile
      (fun c => c = '-')).reverse
  String.mk trimmed

/-- The category store seen by the Category Hierarchy Builder. -/
structure CatDb where
  categories : List Category
  nextId : Nat
  deriving DecidableEq, Repr

/-- The Category row `createCategoryHierarchy` creates for a fresh path:
parent resolved by the path minus its last segment, leaf name qualified
with the parent segment on a name clash, `level = parts.length - 1`. -/
def categoryNode (cats : List Category) (nextId : Nat) (categoryPath : String) : Category :=
  let parts := jsSplit " > " categoryPath
  let categoryName := parts.getLastD ""
  let parentPath : Option String :=
    if parts.length > 1 then some (jsJoin " > " parts.dropLast) else none
  let parentId : Option Nat :=
    match parentPath with
    | some pp => (findCategoryByPath cats pp).map (fun c => c.id)
    | none => none
  let uniqueName :=
    if parts.length > 1 then
      categoryName ++ " (" ++ parts.getD (parts.length - 2) "" ++ ")"
    else categoryName
  let baseSlug := generateSlug categoryName
  let final : String × String :=
    if (cats.find? (fun c => c.name == categoryName)).isSome then
      (uniqueName, generateSlug uniqueName)
    else (categoryName, baseSlug)
  ⟨nextId, final.1, final.2, categoryPath, parentId, parts.length - 1⟩

/-- Embeds `createCategoryHierarchy`: skip when the exact path already exists
(idempotent re-runs); otherwise create the node. -/
def createCategoryHierarchy (db : CatDb) (categoryPath : String) : CatDb :=
  if (findCategoryByPath db.categories categoryPath).isSome then db
  else
    { categories := db.categories ++ [categoryNode db.categories db.nextId categoryPath]
      nextId := db.nextId + 1 }

/-- All prefixes of one delimited category path, shortest first. -/
def prefixPaths (s : String) : List String :=
  let ps := jsSplit " > " s
  (List.range ps.length).map (fun i => jsJoin " > " (ps.take (i + 1)))

/-- The candidate paths of all products, in collection order. -/
def allCategoryPaths (products : List ParsedProduct) : List String :=
  products.flatMap (fun p => if p.productCategory ≠ "" then prefixPaths p.productCategory else [])

/-- Embeds `migrateCategories`: the `Set` of all prefixes (first insertion wins),
sorted lexicographically, then created in order. -/
def migrateCategories (products : List ParsedProduct) (db : CatDb) : CatDb :=
  (List.insertionSort (fun a b : String => a ≤ b)
      (keepFirstBy id (allCategoryPaths products))).foldl createCategoryHierarchy db

/-- One `prisma.productVariant.create` row of `migrateProduct`. -/
def dbVariantOf (pid : Nat) (v : ParsedVariant) : DbVariant :=
  ⟨pid, v.title, v.sku, v.price, v.compareAtPrice, v.costPerItem, v.inventoryQty, v.weight,
    v.option1Value⟩

/-- One `prisma.productImage.create` row of `migrateProduct`. -/
def dbImageOf (pid : Nat) (i : ParsedImage) : DbImage :=
  ⟨pid, i.src, i.altText, i.position⟩

/-- One `prisma.productMetafield.create` row of `migrateProduct`. -/
def dbMetafieldOf (pid : Nat) (m : ParsedMetafield) : DbMetafield :=
  ⟨pid, m.nspace, m.key, m.value, m.type⟩

/-- The product row created by `migrateProduct` for a new handle. -/
def migratedProductRow (pid : Nat) (categoryId : Option Nat) (pd : ParsedProduct) : DbProduct where
  id := pid
  handle := pd.handle
  title := pd.title
  bodyHtml := pd.bodyHtml
  vendor := pd.vendor
  productType := pd.type
  tags := pd.tags
  published := pd.published
  seoTitle := pd.seoTitle
  seoDescription := pd.seoDescription
  status := statusToUpper pd.status
  categoryId := categoryId
  name := pd.title
  description := stripHtml pd.bodyHtml
  imageUrl := (pd.images.head?).map (fun i => i.src)
  price := jsNumOr ((pd.variants.head?).map (fun v => v.price)) 0
  compareAtPrice := (pd.variants.head?).bind (fun v => v.compareAtPrice)
  costPerItem := (pd.variants.head?).bind (fun v => v.costPerItem)
  stock := pd.variants.foldl (fun sum v => sum + v.inventoryQty) 0

/-- Embeds `migrateProduct`: skip when the handle already exists; otherwise create
the product row and insert its variants, its images with a non-empty `src`,
and its metafields with a non-empty `value`. -/
def migrateProduct (db : Db) (pd : ParsedProduct) : Db :=
  let category := findCategoryByPath db.categories pd.productCategory
  match findProductByHandle db pd.handle with
  | some _ => db
  | none =>
    let pid := db.nextId
    { db with
      products := db.products ++ [migratedProductRow pid (category.map (fun c => c.id)) pd]
      variants := db.variants ++ pd.variants.map (dbVariantOf pid)
      images := db.images ++ (pd.images.filter (fun i => i.src ≠ "")).map (dbImageOf pid)
      metafields :=
        db.metafields ++ (pd.metafields.filter (fun m => m.value ≠ "")).map (dbMetafieldOf pid)
      nextId := db.nextId + 1 }

/-- The migration loop over aggregated products: each per-product action is
run under its own try/catch, a failure is counted and the loop continues.
The action is a parameter: it stands for `migrateProduct` as executed
against a store that may throw.  Returns (state, successes, failures). -/
def migrateLoop (act : Db → ParsedProduct → Except String Db) :
    Db → List ParsedProduct → Db × Nat × Nat
  | db, [] => (db, 0, 0)
  | db, p :: ps =>
    match act db p with
    | Except.ok db' =>
      let r := migrateLoop act db' ps
      (r.1, r.2.1 + 1, r.2.2)
    | Except.error _ =>
      let r := migrateLoop act db ps
      (r.1, r.2.1, r.2.2 + 1)

/-- Embeds `migrateFromCSV`: parse (a failed parse is rethrown and fatal), group,
create categories, then run the per-product loop, reporting the tally. -/
def migrateFromCSV (parseResult : Except String (List ShopifyProductRow))
    (act : Db → ParsedProduct → Except String Db) (db : Db) :
    Except String (Db × Nat × Nat) :=
  match parseResult with
  | Except.error e => Except.error e
  | Except.ok rows =>
    let products := (groupProductData rows).map (fun e => e.2)
    let cdb := migrateCategories products ⟨db.categories, db.nextId⟩
    let db1 := { db with categories := cdb.categories, nextId := cdb.nextId }
    Except.ok (migrateLoop act db1 products)

/-- Embeds `runProductMigration` of the CLI: exit 0 when `migrateFromCSV` returns,
exit 1 when it throws. -/
def runProductMigration (parseResult : Except String (List ShopifyProductRow))
    (act : Db → ParsedProduct → Except String Db) (db : Db) : Nat :=
  match migrateFromCSV parseResult act db with
  | Except.ok _ => 0
  | Except.error _ => 1

/-! ## Claims C4, C5: webhook upsert semantics -/

/-- A payload carrying no variants and no images, for handle `p`. -/
def exPayload : ProductPayload :=
  ⟨1, "p", "T", "", "", "", [], none, none, [], []⟩

/-- A persisted product of handle `p`. -/
def exProd : DbProduct :=
  { id := 0, handle := "p", title := "Old", bodyHtml := "", vendor := "", productType := "",
    tags := [], published := false, seoTitle := "", seoDescription := "", status := "ACTIVE",
    categoryId := none, name := "Old", description := "", imageUrl := none, price := 0,
    compareAtPrice := none, costPerItem := none, stock := 0 }

/-- A persisted variant of that product. -/
def exVar : DbVariant :=
  ⟨0, "V", none, 5, none, none, 1, none, none⟩

/-- A store holding the product and its variant. -/
def exDb4 : Db :=
  ⟨[], [exProd], [exVar], [], [], [], [], [], 1⟩

/-- C4 (counterexample): a `products/update` payload carrying no variants is
applied to a product that has one persisted variant; afterwards the variant
is still persisted — the children are not replaced by the payload's
children, refuting the delete-then-insert claim. -/
theorem C4_children_not_replaced_counterexample :
    exPayload.variants = [] ∧ (handleProductUpdate exDb4 exPayload).variants = [exVar] := by
  constructor
  · rfl
  · decide

/-- C4 (amended): a webhook product update (and its create fallback) never
touches the child tables at all — variants, images and metafields are left
exactly as they were; only initial CSV migration of a new handle inserts
child records, namely exactly those derived from the aggregated entity, and
migration of an existing handle changes nothing. -/
theorem C4_webhook_update_leaves_children_migration_inserts_on_create
    (db : Db) (d : ProductPayload) (pd : ParsedProduct) :
    ((handleProductUpdate db d).variants = db.variants
      ∧ (handleProductUpdate db d).images = db.images
      ∧ (handleProductUpdate db d).metafields = db.metafields)
    ∧ ((findProductByHandle db pd.handle).isSome = true → migrateProduct db pd = db)
    ∧ (findProductByHandle db pd.handle = none →
        (migrateProduct db pd).variants = db.variants ++ pd.variants.map (dbVariantOf db.nextId)
        ∧ (migrateProduct db pd).images
            = db.images ++ (pd.images.filter (fun i => i.src ≠ "")).map (dbImageOf db.nextId)
        ∧ (migrateProduct db pd).metafields
            = db.metafields
              ++ (pd.metafields.filter (fun m => m.value ≠ "")).map (dbMetafieldOf db.nextId)) := by
  refine ⟨?_, ?_, ?_⟩
  · unfold handleProductUpdate
    cases findProductByHandle db d.handle with
    | none => exact ⟨rfl, rfl, rfl⟩
    | some p => exact ⟨rfl, rfl, rfl⟩
  · intro hsome
    unfold migrateProduct
    cases hfind : findProductByHandle db pd.handle with
    | none => rw [hfind] at hsome; simp at hsome
    | some p => rfl
  · intro hnone
    unfold migrateProduct
    rw [hnone]
    exact ⟨rfl, rfl, rfl⟩

/-- Witness for C4 (amended): migrating the example aggregate into the
example store inserts exactly its derived variants. -/
theorem C4_witness :
    (migrateProduct exDb4 prodMug).variants
      = exDb4.variants ++ prodMug.variants.map (dbVariantOf exDb4.nextId) :=
  (((C4_webhook_update_leaves_children_migration_inserts_on_create exDb4 exPayload
      prodMug).2.2) (by decide)).1

/-- C5: an update webhook whose key matches nothing creates the entity with
the payload's content (for products, customers, and orders — for orders the
line items are inserted as well); nothing is dropped and nothing errors. -/
theorem C5_update_for_unknown_key_creates
    (db : Db) (hashedPw : String) (dp : ProductPayload) (dc : CustomerPayload)
    (dord : OrderPayload) :
    (findProductByHandle db dp.handle = none →
        handleProductUpdate db dp = insertWebhookProduct db dp
        ∧ findProductByHandle (handleProductUpdate db dp) dp.handle
            = some (webhookProductRow db.nextId dp))
    ∧ (findUserByEmail db dc.email = none →
        handleCustomerUpdate hashedPw db dc = handleCustomerCreate hashedPw db dc
        ∧ findUserByEmail (handleCustomerUpdate hashedPw db dc) dc.email
            = some (webhookUserRow db.nextId hashedPw dc))
    ∧ (findOrderByShopifyId db (toString dord.id) = none →
        handleOrderUpdate db dord = handleOrderCreate db dord
        ∧ findOrderByShopifyId (handleOrderUpdate db dord) (toString dord.id)
            = some (webhookOrderRow db.nextId
                ((findUserByEmail db dord.email).map (fun u => u.id)) dord)
        ∧ (handleOrderUpdate db dord).orderItems
            = db.orderItems ++ dord.line_items.map (webhookOrderItemRow db.nextId)) := by
  refine ⟨?_, ?_, ?_⟩
  · intro hnone
    have h1 : handleProductUpdate db dp = insertWebhookProduct db dp := by
      unfold handleProductUpdate
      rw [hnone]
    refine ⟨h1, ?_⟩
    rw [h1]
    unfold findProductByHandle insertWebhookProduct
    rw [List.find?_append]
    unfold findProductByHandle at hnone
    rw [hnone]
    simp [webhookProductRow]
  · intro hnone
    have h1 : handleCustomerUpdate hashedPw db dc = handleCustomerCreate hashedPw db dc := by
      unfold handleCustomerUpdate
      rw [hnone]
    refine ⟨h1, ?_⟩
    rw [h1]
    unfold handleCustomerCreate
    rw [hnone]
    unfold findUserByEmail
    rw [List.find?_append]
    unfold findUserByEmail at hnone
    rw [hnone]
    simp [webhookUserRow]
  · intro hnone
    have h1 : handleOrderUpdate db dord = handleOrderCreate db dord := by
      unfold handleOrderUpdate
      rw [hnone]
    refine ⟨h1, ?_, ?_⟩
    · rw [h1]
      unfold handleOrderCreate
      rw [hnone]
      unfold findOrderByShopifyId
      rw [List.find?_append]
      unfold findOrderByShopifyId at hnone
      rw [hnone]
      simp [webhookOrderRow]
    · rw [h1]
      unfold handleOrderCreate
      rw [hnone]

/-- An empty-content customer payload for the C5 witness. -/
def exCust : CustomerPayload :=
  ⟨7, "a@b.c", none, none, none, none, none, none, none, none⟩

/-- Witness for C5: a `customers/update` with an unknown email creates the
user with the payload's content. -/
theorem C5_witness :
    handleCustomerUpdate "pw" emptyDb exCust = handleCustomerCreate "pw" emptyDb exCust
      ∧ findUserByEmail (handleCustomerUpdate "pw" emptyDb exCust) exCust.email
          = some (webhookUserRow emptyDb.nextId "pw" exCust) :=
  (C5_update_for_unknown_key_creates emptyDb "pw" exPayload exCust
      ⟨9, "z@b.c", "", none, none, "", none, none, none, none, none, none, none, []⟩).2.1
    (by decide)

/-! ## Claim C6: signature verification at the boundary -/

/-- C6: whenever the signature header does not equal the keyed digest of the
raw body (missing header, tampered body, or wrong signature), the request is
rejected — the persisted state is returned unchanged, the response is 401
(or 500 when the mismatched signature even differs in byte length, since
`timingSafeEqual` then throws into the route's catch) — and the result does
not depend on the JSON parser, the handlers' crypto parameter, or anything
derived from the body: the body is never parsed and no handler runs. -/
theorem verifyShopifyWebhook_mismatch (hmac : String → String → String)
    (req : WebhookRequest) (body secret : String)
    (hsig : req.hmacHeader ≠ some (hmac secret body)) :
    verifyShopifyWebhook hmac req body secret = Except.ok false
      ∨ verifyShopifyWebhook hmac req body secret = Except.error () := by
  unfold verifyShopifyWebhook
  cases hh : req.hmacHeader with
  | none => exact Or.inl rfl
  | some h =>
    have hne : h ≠ hmac secret body := by
      intro hc
      exact hsig (by rw [hh, hc])
    show timingSafeEqualM h (hmac secret body) = Except.ok false
      ∨ timingSafeEqualM h (hmac secret body) = Except.error ()
    unfold timingSafeEqualM
    by_cases hlen : h.utf8ByteSize ≠ (hmac secret body).utf8ByteSize
    · rw [if_pos hlen]
      exact Or.inr rfl
    · rw [if_neg hlen, decide_eq_false hne]
      exact Or.inl rfl

theorem C6_invalid_signature_rejected_before_parse
    (hmac : String → String → String) (parse parse' : String → Except Unit WebhookData)
    (hashedPw hashedPw' : String) (secret : String) (req : WebhookRequest) (db : Db)
    (hsig : req.hmacHeader ≠ some (hmac secret req.body)) :
    (webhookPOST hmac parse hashedPw secret req db).2 = db
    ∧ ((webhookPOST hmac parse hashedPw secret req db).1 = 401
        ∨ (webhookPOST hmac parse hashedPw secret req db).1 = 500)
    ∧ webhookPOST hmac parse hashedPw secret req db
        = webhookPOST hmac parse' hashedPw' secret req db := by
  rcases verifyShopifyWebhook_mismatch hmac req req.body secret hsig with hv | hv
  · unfold webhookPOST
    rw [hv]
    exact ⟨rfl, Or.inl rfl, rfl⟩
  · unfold webhookPOST
    rw [hv]
    exact ⟨rfl, Or.inr rfl, rfl⟩

/-- Witness for C6: a wrong same-length signature is answered 401 with the
state unchanged, independently of the parser. -/
theorem C6_witness :
    (webhookPOST (fun _ _ => "aa") (fun _ => Except.error ()) "x" "s"
        ⟨some "bb", some "products/update", "body"⟩ emptyDb).2 = emptyDb
    ∧ ((webhookPOST (fun _ _ => "aa") (fun _ => Except.error ()) "x" "s"
          ⟨some "bb", some "products/update", "body"⟩ emptyDb).1 = 401
        ∨ (webhookPOST (fun _ _ => "aa") (fun _ => Except.error ()) "x" "s"
            ⟨some "bb", some "products/update", "body"⟩ emptyDb).1 = 500)
    ∧ webhookPOST (fun _ _ => "aa") (fun _ => Except.error ()) "x" "s"
          ⟨some "bb", some "products/update", "body"⟩ emptyDb
        = webhookPOST (fun _ _ => "aa") (fun _ => Except.ok ⟨exPayload, ⟨9, "z@b.c", "", none,
            none, "", none, none, none, none, none, none, none, []⟩, exCust⟩) "y" "s"
          ⟨some "bb", some "products/update", "body"⟩ emptyDb :=
  C6_invalid_signature_rejected_before_parse (fun _ _ => "aa") (fun _ => Except.error ())
    (fun _ => Except.ok ⟨exPayload, ⟨9, "z@b.c", "", none, none, "", none, none, none, none,
      none, none, none, []⟩, exCust⟩) "x" "y" "s"
    ⟨some "bb", some "products/update", "body"⟩ emptyDb (by decide)

/-! ## Claim C7: metafield uniqueness and re-ingestion -/

/-- No product holds two metafields with the same namespace and key. -/
def MetaUnique (db : Db) : Prop :=
  db.metafields.Pairwise fun a b =>
    ¬(a.productId = b.productId ∧ a.nspace = b.nspace ∧ a.key = b.key)

/-- Every persisted metafield belongs to an already-allocated product id. -/
def MetaFresh (db : Db) : Prop :=
  ∀ m ∈ db.metafields, m.productId < db.nextId

theorem migrateProduct_meta_preserved (db : Db) (pd : ParsedProduct)
    (hpd : pd.metafields.Pairwise fun a b => a.key ≠ b.key)
    (hu : MetaUnique db) (hf : MetaFresh db) :
    MetaUnique (migrateProduct db pd) ∧ MetaFresh (migrateProduct db pd) := by
  unfold migrateProduct
  cases hfind : findProductByHandle db pd.handle with
  | some p => exact ⟨hu, hf⟩
  | none =>
    constructor
    · unfold MetaUnique
      simp only [List.pairwise_append]
      refine ⟨hu, ?_, ?_⟩
      · rw [List.pairwise_map]
        refine List.Pairwise.filter _ (hpd.imp ?_)
        intro a b hk hc
        exact hk hc.2.2
      · intro a ha b hb
        have hlt : a.productId < db.nextId := hf a ha
        rcases List.mem_map.mp hb with ⟨m, -, hm⟩
        intro hc
        rw [← hm] at hc
        have : a.productId = db.nextId := hc.1
        omega
    · intro m hm
      simp only [List.mem_append] at hm
      rcases hm with hmold | hmnew
      · have := hf m hmold
        simp only []
        omega
      · rcases List.mem_map.mp hmnew with ⟨x, -, hx⟩
        rw [← hx]
        simp only [dbMetafieldOf]
        omega

/-- Each product the aggregator emits has pairwise-distinct metafield keys
(and `shopify` namespaces). -/
theorem aggregated_metafields_pairwise (rows : List ShopifyProductRow) (h : String)
    (p : ParsedProduct) (hmem : (h, p) ∈ groupProductData rows) :
    (p.metafields.Pairwise fun a b => a.key ≠ b.key)
      ∧ ∀ m ∈ p.metafields, m.nspace = "shopify" := by
  obtain ⟨-, r, l, -, hp⟩ := groupProductData_char rows h p hmem
  have hmeta : p.metafields = ((r :: l).foldl rowStep (initProduct r)).metafields := by
    rw [hp, metafields_finishProduct]
    rfl
  rw [hmeta]
  exact ⟨metafields_foldl_rowStep_pairwise (r :: l) (initProduct r) (by simp [initProduct]),
    metafields_foldl_rowStep_shopify (r :: l) (initProduct r) (by simp [initProduct])⟩

/-- The handle `p7` store for the C7 counterexample: the product exists with
a `color-pattern` metafield valued `red`. -/
def exDb7 : Db :=
  ⟨[], [{ exProd with handle := "p7" }], [], [],
    [⟨0, "shopify", "color-pattern", "red", "string"⟩], [], [], [], 1⟩

/-- The re-ingested aggregate for `p7`, carrying the value `blue`. -/
def exPd7 : ParsedProduct :=
  { prodT1 with
      handle := "p7"
      metafields := [⟨"shopify", "color-pattern", "blue", "string"⟩] }

/-- C7 (counterexample): re-ingesting an existing product does NOT overwrite
the stored metafield value — the product is skipped and the old value kept. -/
theorem C7_reingestion_does_not_overwrite_counterexample :
    migrateProduct exDb7 exPd7 = exDb7
    ∧ exPd7.metafields.map (fun m => m.value) = ["blue"]
    ∧ (migrateProduct exDb7 exPd7).metafields.map (fun m => m.value) = ["red"] := by
  refine ⟨by decide, rfl, by decide⟩

/-- C7 (amended): across a whole migration run over aggregated products, no
product ever holds two metafields with the same namespace and key; and
re-ingesting data for an existing product leaves the store unchanged (the
product is skipped) — the stored value is neither duplicated nor
overwritten. -/
theorem foldl_migrateProduct_meta (ps : List ParsedProduct) :
    ∀ db : Db, (∀ p ∈ ps, p.metafields.Pairwise fun a b => a.key ≠ b.key) →
      MetaUnique db → MetaFresh db →
      MetaUnique (ps.foldl migrateProduct db) ∧ MetaFresh (ps.foldl migrateProduct db) := by
  induction ps with
  | nil => intro db _ hu hf; exact ⟨hu, hf⟩
  | cons p ps ih =>
    intro db hall hu hf
    have hstep := migrateProduct_meta_preserved db p (hall p (List.mem_cons_self _ _)) hu hf
    exact ih (migrateProduct db p) (fun q hq => hall q (List.mem_cons_of_mem _ hq))
      hstep.1 hstep.2

/-- C7 (amended): across a whole migration run over aggregated products, no
product ever holds two metafields with the same namespace and key; and
re-ingesting data for an existing product leaves the store unchanged (the
product is skipped) — the stored value is neither duplicated nor
overwritten. -/
theorem C7_metafield_uniqueness_and_skip (rows : List ShopifyProductRow) (db : Db)
    (hu : MetaUnique db) (hf : MetaFresh db) :
    (MetaUnique (((groupProductData rows).map (fun e => e.2)).foldl migrateProduct db)
      ∧ MetaFresh (((groupProductData rows).map (fun e => e.2)).foldl migrateProduct db))
    ∧ (∀ pd, (findProductByHandle db pd.handle).isSome = true → migrateProduct db pd = db) := by
  constructor
  · refine foldl_migrateProduct_meta _ db ?_ hu hf
    intro p hp
    rcases List.mem_map.mp hp with ⟨e, he, hep⟩
    refine hep ▸ (aggregated_metafields_pairwise rows e.1 e.2 ?_).1
    have : e = (e.1, e.2) := rfl
    rw [← this]
    exact he
  · intro pd hsome
    unfold migrateProduct
    cases hfind : findProductByHandle db pd.handle with
    | none => rw [hfind] at hsome; simp at hsome
    | some p => rfl

/-- Witness for C7 (amended): running the migration of the worked example
into an empty store keeps metafield uniqueness. -/
theorem C7_witness :
    MetaUnique (((groupProductData [rowM1, rowM2, rowM3, rowM4]).map
        (fun e => e.2)).foldl migrateProduct emptyDb) :=
  ((C7_metafield_uniqueness_and_skip [rowM1, rowM2, rowM3, rowM4] emptyDb
      (List.Pairwise.nil) (by intro m hm; simp [emptyDb] at hm)).1).1

/-! ## Claim C8: per-product failures are counted, not fatal -/

/-- C8: whatever the per-product action does, every product is processed and
lands in exactly one tally bucket (successes + failures = number of
products); a run whose parse succeeded exits 0 — per-product failures never
change the exit code — and only a fatal parse failure exits 1. -/
theorem C8_per_product_failures_tallied_exit_zero
    (act : Db → ParsedProduct → Except String Db) (msg : String) :
    (∀ (products : List ParsedProduct) (db : Db),
        (migrateLoop act db products).2.1 + (migrateLoop act db products).2.2
          = products.length)
    ∧ (∀ (rows : List ShopifyProductRow) (db : Db),
        runProductMigration (Except.ok rows) act db = 0)
    ∧ (∀ db : Db, runProductMigration (Except.error msg) act db = 1) := by
  refine ⟨?_, ?_, ?_⟩
  · intro products
    induction products with
    | nil => intro db; rfl
    | cons p ps ih =>
      intro db
      unfold migrateLoop
      cases act db p with
      | ok db' =>
        simp only [List.length_cons]
        have := ih db'
        omega
      | error e =>
        simp only [List.length_cons]
        have := ih db
        omega
  · intro rows db
    rfl
  · intro db
    rfl

/-! ## Claim C3: split/join theory for category paths

`createCategoryHierarchy` re-splits each candidate path string that
`migrateCategories` produced by joining a prefix of a split path, so the
proofs need: greedy split inverts join on split-produced segment prefixes,
and a string sorts lexicographically before any string it is a strict
prefix of (hence parents sort before children). -/

/-- Char-level `Array.join(sep)`, mirroring `jsJoin`. -/
def joinChars (sep : List Char) : List (List Char) → List Char
  | [] => []
  | [a] => a
  | a :: b :: l => a ++ sep ++ joinChars sep (b :: l)

theorem jsJoin_data (sep : String) (L : List String) :
    (jsJoin sep L).data = joinChars sep.data (L.map String.data) := by
  induction L with
  | nil => rfl
  | cons a L ih =>
    cases L with
    | nil => rfl
    | cons b L' =>
      simp only [jsJoin, joinChars, String.data_append, List.map_cons, ih]

/-- The head segment the scan is accumulating distributes over the
accumulator: `jsSplitAux` on `cur` prepends `cur.reverse` to the head of
the accumulator-free run. -/
theorem jsSplitAux_acc (sep : List Char) :
    ∀ (n : Nat) (s : List Char), s.length ≤ n → ∀ cur : List Char,
      jsSplitAux sep s cur
        = (cur.reverse ++ (jsSplitAux sep s []).headD []) :: (jsSplitAux sep s []).tail := by
  intro n
  induction n with
  | zero =>
    intro s hs cur
    rw [List.length_eq_zero.mp (Nat.le_zero.mp hs)]
    simp [jsSplitAux_nil]
  | succ n ih =>
    intro s hs cur
    cases s with
    | nil => simp [jsSplitAux_nil]
    | cons c rest =>
      rw [jsSplitAux_cons, jsSplitAux_cons]
      by_cases hcond : (c :: rest).take sep.length = sep ∧ sep ≠ []
      · rw [if_pos hcond, if_pos hcond]
        simp
      · rw [if_neg hcond, if_neg hcond]
        have hlen : rest.length ≤ n := by
          simp only [List.length_cons] at hs
          omega
        rw [ih rest hlen (c :: cur), ih rest hlen [c]]
        simp

/-- No occurrence of the separator anywhere in `a`. -/
def NoSep (sep a : List Char) : Prop :=
  ∀ u v : List Char, a ≠ u ++ sep ++ v

/-- Embeds `a` is a first segment: the only occurrence of `sep` in `a ++ sep` is
the final one. -/
def FirstSeg (sep a : List Char) : Prop :=
  ∀ u v : List Char, a ++ sep = u ++ sep ++ v → u = a ∧ v = []

theorem FirstSeg.noSep {sep a : List Char} (hsep : sep ≠ []) (h : FirstSeg sep a) :
    NoSep sep a := by
  intro u v hc
  have := h u (v ++ sep) (by rw [hc]; simp)
  rcases this with ⟨-, h2⟩
  exact hsep (by cases v <;> simp_all)

/-- How the greedy scan decomposes its input. -/
inductive SplitsAs (sep : List Char) : List Char → List (List Char) → Prop where
  | single : ∀ a, NoSep sep a → SplitsAs sep a [a]
  | cons : ∀ a t l, FirstSeg sep a → SplitsAs sep t l → SplitsAs sep (a ++ sep ++ t) (a :: l)

theorem SplitsAs.ne_nil {sep s : List Char} {l : List (List Char)}
    (h : SplitsAs sep s l) : l ≠ [] := by
  cases h <;> simp

/-- A match at the head of the scan means the separator is a prefix. -/
theorem take_eq_sep_decomp {sep s : List Char} (h : s.take sep.length = sep) :
    s = sep ++ s.drop sep.length := by
  conv_lhs => rw [← List.take_append_drop sep.length s, h]

theorem noSep_nil (sep : List Char) (hsep : sep ≠ []) : NoSep sep [] := by
  intro u v hc
  apply hsep
  have hl := congrArg List.length hc
  simp only [List.length_append, List.length_nil] at hl
  exact List.length_eq_zero.mp (by omega)

theorem splitsAs_jsSplitAux (sep : List Char) (hsep : sep ≠ []) :
    ∀ (n : Nat) (s : List Char), s.length ≤ n → SplitsAs sep s (jsSplitAux sep s []) := by
  intro n
  induction n with
  | zero =>
    intro s hs
    rw [List.length_eq_zero.mp (Nat.le_zero.mp hs), jsSplitAux_nil]
    exact SplitsAs.single [] (noSep_nil sep hsep)
  | succ n ih =>
    intro s hs
    cases s with
    | nil =>
      rw [jsSplitAux_nil]
      exact SplitsAs.single [] (noSep_nil sep hsep)
    | cons c rest =>
      rw [jsSplitAux_cons]
      by_cases hcond : (c :: rest).take sep.length = sep ∧ sep ≠ []
      · rw [if_pos hcond]
        have hdecomp := take_eq_sep_decomp hcond.1
        have hlen : ((c :: rest).drop sep.length).length ≤ n := by
          have h1 : sep.length ≥ 1 := by
            cases sep with
            | nil => exact absurd rfl hsep
            | cons x xs => simp
          simp only [List.length_drop, List.length_cons]
          simp only [List.length_cons] at hs
          omega
        have hrec := ih _ hlen
        have hfs : FirstSeg sep [] := by
          intro u v huv
          simp only [List.nil_append] at huv
          have hl := congrArg List.length huv
          simp only [List.length_append] at hl
          exact ⟨List.length_eq_zero.mp (by omega), List.length_eq_zero.mp (by omega)⟩
        have hstep := SplitsAs.cons [] ((c :: rest).drop sep.length) _ hfs hrec
        simp only [List.nil_append] at hstep
        rw [← hdecomp] at hstep
        simpa using hstep
      · rw [if_neg hcond]
        have hne : (c :: rest).take sep.length ≠ sep := fun hc => hcond ⟨hc, hsep⟩
        have hlen : rest.length ≤ n := by
          simp only [List.length_cons] at hs
          omega
        rw [jsSplitAux_acc sep n rest hlen [c]]
        have hrest := ih rest hlen
        generalize hE : jsSplitAux sep rest [] = E at hrest ⊢
        cases hrest with
        | single a hno =>
          simp only [List.headD, List.tail, List.reverse_cons, List.reverse_nil,
            List.nil_append, List.singleton_append]
          refine SplitsAs.single (c :: rest) ?_
          intro u v hc
          cases u with
          | nil =>
            simp only [List.nil_append] at hc
            apply hne
            rw [hc]
            exact List.take_left sep v
          | cons c' u' =>
            rw [List.cons_append, List.cons_append] at hc
            injection hc with h1 h2
            exact hno u' v h2
        | cons a t l hfs hrec =>
          simp only [List.headD, List.tail, List.reverse_cons, List.reverse_nil,
            List.nil_append, List.singleton_append]
          have hgoal := SplitsAs.cons (c :: a) t l ?_ hrec
          · simpa using hgoal
          · intro u v huv
            cases u with
            | nil =>
              simp only [List.nil_append] at huv
              exfalso
              apply hne
              have hshape : c :: (a ++ sep ++ t) = sep ++ (v ++ t) := by
                calc c :: (a ++ sep ++ t)
                    = ((c :: a) ++ sep) ++ t := by simp
                  _ = (sep ++ v) ++ t := by rw [huv]
                  _ = sep ++ (v ++ t) := by simp
              rw [hshape]
              exact List.take_left sep (v ++ t)
            | cons c' u' =>
              rw [List.cons_append, List.cons_append, List.cons_append] at huv
              injection huv with h1 h2
              rcases hfs u' v h2 with ⟨h3, h4⟩
              exact ⟨by rw [h1, h3], h4⟩

/-- A separator-free string is split into a single segment. -/
theorem jsSplitAux_noSep (sep : List Char) :
    ∀ a : List Char, NoSep sep a → ∀ cur, jsSplitAux sep a cur = [cur.reverse ++ a] := by
  intro a
  induction a with
  | nil => intro _ cur; rw [jsSplitAux_nil]; simp
  | cons c a' ih =>
    intro hno cur
    rw [jsSplitAux_cons]
    have hcond : ¬((c :: a').take sep.length = sep ∧ sep ≠ []) := by
      rintro ⟨h1, h2⟩
      exact hno [] ((c :: a').drop sep.length) (by simpa using take_eq_sep_decomp h1)
    rw [if_neg hcond]
    have hno' : NoSep sep a' := by
      intro u v hc
      exact hno (c :: u) v (by rw [hc]; simp)
    rw [ih hno' (c :: cur)]
    simp

/-- The scan consumes exactly one first segment and its separator. -/
theorem jsSplitAux_firstSeg (sep : List Char) (hsep : sep ≠ []) :
    ∀ a : List Char, FirstSeg sep a → ∀ cur t,
      jsSplitAux sep (a ++ sep ++ t) cur = (cur.reverse ++ a) :: jsSplitAux sep t [] := by
  intro a
  induction a with
  | nil =>
    intro _ cur t
    simp only [List.nil_append]
    rcases List.exists_cons_of_ne_nil hsep with ⟨c, sep', hc⟩
    have hshape : sep ++ t = c :: (sep' ++ t) := by rw [hc]; simp
    rw [hshape, jsSplitAux_cons]
    have hcond : (c :: (sep' ++ t)).take sep.length = sep ∧ sep ≠ [] := by
      refine ⟨?_, hsep⟩
      rw [← hshape]
      exact List.take_left sep t
    rw [if_pos hcond]
    have hdrop : (c :: (sep' ++ t)).drop sep.length = t := by
      rw [← hshape]
      exact List.drop_left sep t
    rw [hdrop]
    simp
  | cons c a' ih =>
    intro hfs cur t
    have hshape : (c :: a') ++ sep ++ t = c :: (a' ++ sep ++ t) := by simp
    rw [hshape, jsSplitAux_cons]
    have hcond : ¬((c :: (a' ++ sep ++ t)).take sep.length = sep ∧ sep ≠ []) := by
      rintro ⟨h1, -⟩
      have hA : c :: (a' ++ sep ++ t) = ((c :: a') ++ sep) ++ t := by simp
      rw [hA] at h1
      have hlen : sep.length ≤ ((c :: a') ++ sep).length := by
        simp only [List.length_append]
        omega
      rw [List.take_append_of_le_length hlen] at h1
      have h4 := take_eq_sep_decomp h1
      rcases hfs [] (((c :: a') ++ sep).drop sep.length) (by simpa using h4) with ⟨h5, -⟩
      exact List.noConfusion h5
    rw [if_neg hcond]
    have hfs' : FirstSeg sep a' := by
      intro u v huv
      rcases hfs (c :: u) v (by rw [List.cons_append, huv]; simp) with ⟨h1, h2⟩
      injection h1 with hhead h3
      exact ⟨h3, h2⟩
    rw [ih hfs' (c :: cur) t]
    simp

/-- Splitting the join of the first `k ≥ 1` segments of a split returns
exactly those segments. -/
theorem jsSplitAux_join_take (sep : List Char) (hsep : sep ≠ []) :
    ∀ {s : List Char} {segs : List (List Char)}, SplitsAs sep s segs →
      ∀ k, 1 ≤ k → jsSplitAux sep (joinChars sep (segs.take k)) [] = segs.take k := by
  intro s segs hsplit
  induction hsplit with
  | single a hno =>
    intro k hk
    cases k with
    | zero => omega
    | succ k' =>
      rw [List.take_succ_cons, List.take_nil]
      have hja : joinChars sep [a] = a := rfl
      rw [hja, jsSplitAux_noSep sep a hno []]
      rfl
  | cons a t l hfs hrec ih =>
    intro k hk
    cases k with
    | zero => omega
    | succ k' =>
      rw [List.take_succ_cons]
      cases hk2 : k' with
      | zero =>
        rw [List.take_zero]
        have hja : joinChars sep [a] = a := rfl
        rw [hja, jsSplitAux_noSep sep a (hfs.noSep hsep) []]
        rfl
      | succ k'' =>
        have htake2 : l.take k' ≠ [] := by
          rcases List.exists_cons_of_ne_nil hrec.ne_nil with ⟨b, l2, hbl⟩
          rw [hbl, hk2, List.take_succ_cons]
          simp
        rcases List.exists_cons_of_ne_nil htake2 with ⟨b2, m, hbm⟩
        have hjoin : joinChars sep (a :: l.take k') = a ++ sep ++ joinChars sep (l.take k') := by
          rw [hbm]
          rfl
        rw [← hk2, hjoin, jsSplitAux_firstSeg sep hsep a hfs [] _, ih k' (by omega)]
        rfl

theorem mk_data (cs : List Char) : (String.mk cs).data = cs := rfl

theorem sepGT_ne : (" > " : String).data ≠ [] := by decide

theorem jsSplit_data_map (sep s : String) :
    (jsSplit sep s).map String.data = jsSplitAux sep.data s.data [] := by
  unfold jsSplit
  rw [List.map_map]
  have : String.data ∘ (fun cs => (⟨cs⟩ : String)) = id := rfl
  rw [this, List.map_id]

/-- Embeds `String.data` is injective on lists of strings. -/
theorem map_data_injective : Function.Injective (List.map String.data) :=
  List.map_injective_iff.mpr (fun a b h => congrArg String.mk h)

/-- Splitting the join of the first `k ≥ 1` segments of a split string
returns exactly those segments (string level). -/
theorem jsSplit_join_take (q : String) (k : Nat) (hk : 1 ≤ k) :
    jsSplit " > " (jsJoin " > " ((jsSplit " > " q).take k)) = (jsSplit " > " q).take k := by
  have hsplit := splitsAs_jsSplitAux (" > ").data sepGT_ne q.data.length q.data le_rfl
  have hdata : (jsJoin " > " ((jsSplit " > " q).take k)).data
      = joinChars (" > ").data ((jsSplitAux (" > ").data q.data []).take k) := by
    rw [jsJoin_data, List.map_take, jsSplit_data_map " > " q]
  apply map_data_injective
  rw [jsSplit_data_map, hdata, jsSplitAux_join_take (" > ").data sepGT_ne hsplit k hk,
    List.map_take, jsSplit_data_map " > " q]

theorem joinChars_append (sep : List Char) (A B : List (List Char))
    (hA : A ≠ []) (hB : B ≠ []) :
    joinChars sep (A ++ B) = joinChars sep A ++ sep ++ joinChars sep B := by
  induction A with
  | nil => exact absurd rfl hA
  | cons a A' ih =>
    cases A' with
    | nil =>
      rcases List.exists_cons_of_ne_nil hB with ⟨b, B', hb⟩
      rw [hb]
      rfl
    | cons a2 A'' =>
      have h1 : (a :: a2 :: A'') ++ B = a :: ((a2 :: A'') ++ B) := rfl
      rw [h1]
      have h2 : joinChars sep (a :: (a2 :: A'' ++ B)) = a ++ sep ++ joinChars sep (a2 :: A'' ++ B) := rfl
      rw [h2, ih (by simp)]
      have h3 : joinChars sep (a :: a2 :: A'') = a ++ sep ++ joinChars sep (a2 :: A'') := rfl
      rw [h3]
      simp [List.append_assoc]

theorem list_lt_append (l u : List Char) (hu : u ≠ []) : l < l ++ u := by
  show List.Lex (· < ·) l (l ++ u)
  induction l with
  | nil =>
    cases u with
    | nil => exact absurd rfl hu
    | cons a u' => exact List.Lex.nil
  | cons a l ih => exact List.Lex.cons ih

theorem lt_of_data_append (s t : String) (u : List Char) (hu : u ≠ [])
    (h : t.data = s.data ++ u) : s < t := by
  rw [String.lt_iff_toList_lt]
  show s.data < t.data
  rw [h]
  exact list_lt_append s.data u hu

/-- A shorter join of prefixes of the same split sorts strictly first. -/
theorem candidate_lt (q : String) (j k : Nat) (hj : 1 ≤ j) (hjk : j < k)
    (hk : k ≤ (jsSplit " > " q).length) :
    jsJoin " > " ((jsSplit " > " q).take j) < jsJoin " > " ((jsSplit " > " q).take k) := by
  have hlen : (jsSplit " > " q).length = (jsSplitAux (" > ").data q.data []).length := by
    rw [← jsSplit_data_map " > " q, List.length_map]
  set segs := jsSplitAux (" > ").data q.data [] with hsegs
  have hdataj : (jsJoin " > " ((jsSplit " > " q).take j)).data
      = joinChars (" > ").data (segs.take j) := by
    rw [jsJoin_data, List.map_take, jsSplit_data_map " > " q]
  have hdatak : (jsJoin " > " ((jsSplit " > " q).take k)).data
      = joinChars (" > ").data (segs.take k) := by
    rw [jsJoin_data, List.map_take, jsSplit_data_map " > " q]
  have hklen : k ≤ segs.length := by rw [← hlen]; exact hk
  have hdecomp : segs.take k = segs.take j ++ (segs.take k).drop j := by
    conv_lhs => rw [← List.take_append_drop j (segs.take k)]
    rw [List.take_take, Nat.min_eq_left (Nat.le_of_lt hjk)]
  have hmidne : (segs.take k).drop j ≠ [] := by
    intro hc
    have hl := congrArg List.length hc
    simp only [List.length_drop, List.length_take, List.length_nil] at hl
    omega
  have htakene : segs.take j ≠ [] := by
    intro hc
    have hl := congrArg List.length hc
    simp only [List.length_take, List.length_nil] at hl
    omega
  have hkey : joinChars (" > ").data (segs.take k)
      = joinChars (" > ").data (segs.take j) ++ (" > ").data
          ++ joinChars (" > ").data ((segs.take k).drop j) := by
    conv_lhs => rw [hdecomp]
    exact joinChars_append _ _ _ htakene hmidne
  refine lt_of_data_append _ _ ((" > ").data ++ joinChars (" > ").data ((segs.take k).drop j))
    (by simp) ?_
  rw [hdataj, hdatak, hkey]
  simp [List.append_assoc]

/-- Embeds `keepFirstBy id` keeps exactly the set of elements. -/
theorem mem_keepFirstByAux_id (l : List String) :
    ∀ (seen : List String) (x : String), x ∈ l → (seen.any fun k => k == x) = false →
      x ∈ keepFirstByAux id seen l := by
  induction l with
  | nil => intro seen x hx; simp at hx
  | cons v l ih =>
    intro seen x hx hseen
    rw [keepFirstByAux]
    by_cases hv : seen.any (fun k => k == (id v : String))
    · rw [if_pos hv]
      rcases List.mem_cons.mp hx with hxv | hxl
      · subst hxv
        simp only [id_eq] at hv
        rw [hseen] at hv
        exact absurd hv (by simp)
      · exact ih seen x hxl hseen
    · rw [if_neg hv]
      rcases List.mem_cons.mp hx with hxv | hxl
      · exact hxv ▸ List.mem_cons_self _ _
      · by_cases hxveq : x = v
        · exact hxveq ▸ List.mem_cons_self _ _
        · refine List.mem_cons_of_mem _ (ih _ x hxl ?_)
          simp only [List.any_append, List.any_cons, List.any_nil, Bool.or_false, hseen,
            Bool.false_or]
          simp only [id, beq_eq_false_iff_ne, ne_eq]
          exact fun hc => hxveq hc.symm

theorem mem_keepFirstBy_id (l : List String) (x : String) :
    x ∈ keepFirstBy id l ↔ x ∈ l := by
  constructor
  · exact keepFirstBy_subset id l x
  · intro hx
    exact mem_keepFirstByAux_id l [] x hx rfl

/-- The sorted candidate list of the Category Hierarchy Builder. -/
def sortedCandidates (products : List ParsedProduct) : List String :=
  List.insertionSort (fun a b : String => a ≤ b) (keepFirstBy id (allCategoryPaths products))

theorem migrateCategories_eq (products : List ParsedProduct) (db : CatDb) :
    migrateCategories products db = (sortedCandidates products).foldl createCategoryHierarchy db := rfl

theorem mem_sortedCandidates (products : List ParsedProduct) (x : String) :
    x ∈ sortedCandidates products ↔ x ∈ allCategoryPaths products := by
  unfold sortedCandidates
  rw [(List.perm_insertionSort _ _).mem_iff]
  exact mem_keepFirstBy_id _ x

theorem sortedCandidates_sorted (products : List ParsedProduct) :
    (sortedCandidates products).Sorted (fun a b : String => a ≤ b) :=
  List.sorted_insertionSort _ _

/-- Provenance of a candidate: it is the join of a nonempty prefix of the
split of some product's category path. -/
theorem candidate_provenance (products : List ParsedProduct) (x : String)
    (hx : x ∈ sortedCandidates products) :
    ∃ q i, i < (jsSplit " > " q).length
      ∧ x = jsJoin " > " ((jsSplit " > " q).take (i + 1))
      ∧ ∀ j, j < (jsSplit " > " q).length →
          jsJoin " > " ((jsSplit " > " q).take (j + 1)) ∈ sortedCandidates products := by
  rw [mem_sortedCandidates] at hx
  unfold allCategoryPaths at hx
  rcases List.mem_flatMap.mp hx with ⟨p, hp, hxp⟩
  by_cases hcat : p.productCategory ≠ ""
  · rw [if_pos hcat] at hxp
    unfold prefixPaths at hxp
    rcases List.mem_map.mp hxp with ⟨i, hi, hxi⟩
    refine ⟨p.productCategory, i, List.mem_range.mp hi, hxi.symm, ?_⟩
    intro j hj
    rw [mem_sortedCandidates]
    unfold allCategoryPaths
    refine List.mem_flatMap.mpr ⟨p, hp, ?_⟩
    rw [if_pos hcat]
    unfold prefixPaths
    exact List.mem_map.mpr ⟨j, List.mem_range.mpr hj, rfl⟩
  · rw [if_neg hcat] at hxp
    simp at hxp

/-- The parent string of a multi-segment candidate is itself a candidate and
lexicographically smaller. -/
theorem candidate_parent_closure (products : List ParsedProduct) (x : String)
    (hx : x ∈ sortedCandidates products) (hlen : 2 ≤ (jsSplit " > " x).length) :
    jsJoin " > " ((jsSplit " > " x).dropLast) ∈ sortedCandidates products
      ∧ jsJoin " > " ((jsSplit " > " x).dropLast) < x := by
  rcases candidate_provenance products x hx with ⟨q, i, hi, hxi, hall⟩
  have hsplitx : jsSplit " > " x = (jsSplit " > " q).take (i + 1) := by
    rw [hxi]
    exact jsSplit_join_take q (i + 1) (by omega)
  have hlenx : (jsSplit " > " x).length = i + 1 := by
    rw [hsplitx, List.length_take]
    omega
  have hi1 : 1 ≤ i := by omega
  have hdrop : (jsSplit " > " x).dropLast = (jsSplit " > " q).take i := by
    rw [hsplitx, List.dropLast_eq_take, List.length_take]
    rw [List.take_take]
    congr 1
    omega
  constructor
  · rw [hdrop]
    have : i = (i - 1) + 1 := by omega
    rw [this]
    exact hall (i - 1) (by omega)
  · rw [hdrop, hxi]
    exact candidate_lt q i (i + 1) hi1 (by omega) (by omega)

/-! ## The Category Hierarchy Builder invariant -/

theorem categoryNode_id (cats : List Category) (n : Nat) (x : String) :
    (categoryNode cats n x).id = n := rfl

theorem categoryNode_path (cats : List Category) (n : Nat) (x : String) :
    (categoryNode cats n x).shopifyCategory = x := rfl

theorem categoryNode_level (cats : List Category) (n : Nat) (x : String) :
    (categoryNode cats n x).level = (jsSplit " > " x).length - 1 := rfl

theorem categoryNode_parentId (cats : List Category) (n : Nat) (x : String) :
    (categoryNode cats n x).parentId
      = if 1 < (jsSplit " > " x).length
        then (findCategoryByPath cats (jsJoin " > " ((jsSplit " > " x).dropLast))).map
          (fun c => c.id)
        else none := by
  unfold categoryNode
  by_cases h : 1 < (jsSplit " > " x).length
  · simp [h]
  · simp [h]

theorem findCategoryByPath_eq_some (cats : List Category) (path : String) (c : Category)
    (h : findCategoryByPath cats path = some c) : c ∈ cats ∧ c.shopifyCategory = path := by
  unfold findCategoryByPath at h
  refine ⟨List.mem_of_find?_eq_some h, ?_⟩
  have := List.find?_some h
  simpa using this

theorem findCategoryByPath_isSome (cats : List Category) (path : String)
    (h : ∃ c ∈ cats, c.shopifyCategory = path) :
    (findCategoryByPath cats path).isSome = true := by
  unfold findCategoryByPath
  rw [List.find?_isSome]
  rcases h with ⟨c, hc, hpath⟩
  exact ⟨c, hc, by simp [hpath]⟩

/-- The builder invariant: ids are fresh, every node's level is its segment
count minus one, every multi-segment node links to an earlier-created node
holding its parent path, and every processed path has a node. -/
def CatInv (db : CatDb) (done : List String) : Prop :=
  (∀ c ∈ db.categories, c.id < db.nextId)
  ∧ (∀ c ∈ db.categories, c.level = (jsSplit " > " c.shopifyCategory).length - 1)
  ∧ (∀ c ∈ db.categories, 2 ≤ (jsSplit " > " c.shopifyCategory).length →
      ∃ par, par ∈ db.categories ∧ c.parentId = some par.id
        ∧ par.shopifyCategory = jsJoin " > " ((jsSplit " > " c.shopifyCategory).dropLast)
        ∧ par.id < c.id)
  ∧ (∀ x ∈ done, ∃ c ∈ db.categories, c.shopifyCategory = x)
  ∧ (db.categories.Pairwise fun a b => a.shopifyCategory ≠ b.shopifyCategory)

theorem cch_inv (db : CatDb) (done : List String) (x : String)
    (hinv : CatInv db done)
    (hpar : 2 ≤ (jsSplit " > " x).length →
        ∃ c ∈ db.categories, c.shopifyCategory = jsJoin " > " ((jsSplit " > " x).dropLast)) :
    CatInv (createCategoryHierarchy db x) (done ++ [x]) := by
  obtain ⟨h1, h2, h3, h4, h5⟩ := hinv
  unfold createCategoryHierarchy
  by_cases hex : (findCategoryByPath db.categories x).isSome = true
  · rw [if_pos hex]
    refine ⟨h1, h2, h3, ?_, h5⟩
    intro y hy
    rcases List.mem_append.mp hy with hyd | hyx
    · exact h4 y hyd
    · rcases Option.isSome_iff_exists.mp hex with ⟨c, hc⟩
      rcases findCategoryByPath_eq_some _ _ _ hc with ⟨hcm, hcp⟩
      simp only [List.mem_singleton] at hyx
      exact ⟨c, hcm, by rw [hcp, hyx]⟩
  · rw [if_neg hex]
    set node := categoryNode db.categories db.nextId x with hnode
    refine ⟨?_, ?_, ?_, ?_, ?_⟩
    · intro c hc
      rcases List.mem_append.mp hc with hcd | hcx
      · have := h1 c hcd
        simp only []
        omega
      · simp only [List.mem_singleton] at hcx
        rw [hcx, hnode, categoryNode_id]
        simp
    · intro c hc
      rcases List.mem_append.mp hc with hcd | hcx
      · exact h2 c hcd
      · simp only [List.mem_singleton] at hcx
        rw [hcx, hnode, categoryNode_level, categoryNode_path]
    · intro c hc hclen
      rcases List.mem_append.mp hc with hcd | hcx
      · rcases h3 c hcd hclen with ⟨par, hpm, hpid, hpp, hplt⟩
        exact ⟨par, List.mem_append_left _ hpm, hpid, hpp, hplt⟩
      · simp only [List.mem_singleton] at hcx
        subst hcx
        rw [hnode, categoryNode_path] at hclen
        rcases hpar hclen with ⟨par, hpm, hpp⟩
        have hfind : (findCategoryByPath db.categories
            (jsJoin " > " ((jsSplit " > " x).dropLast))).isSome = true :=
          findCategoryByPath_isSome _ _ ⟨par, hpm, hpp⟩
        rcases Option.isSome_iff_exists.mp hfind with ⟨par', hpar'⟩
        rcases findCategoryByPath_eq_some _ _ _ hpar' with ⟨hpm', hpp'⟩
        refine ⟨par', List.mem_append_left _ hpm', ?_, ?_, ?_⟩
        · rw [hnode, categoryNode_parentId]
          rw [if_pos (show 1 < (jsSplit " > " x).length by omega), hpar']
          rfl
        · rw [hnode, categoryNode_path]
          exact hpp'
        · rw [hnode, categoryNode_id]
          exact h1 par' hpm'
    · intro y hy
      rcases List.mem_append.mp hy with hyd | hyx
      · rcases h4 y hyd with ⟨c, hcm, hcp⟩
        exact ⟨c, List.mem_append_left _ hcm, hcp⟩
      · simp only [List.mem_singleton] at hyx
        exact ⟨node, List.mem_append_right _ (List.mem_singleton_self _),
          by rw [hnode, categoryNode_path, hyx]⟩
    · rw [List.pairwise_append]
      refine ⟨h5, List.pairwise_singleton _ _, ?_⟩
      intro a ha b hb
      simp only [List.mem_singleton] at hb
      subst hb
      rw [hnode, categoryNode_path]
      intro hc
      have : (findCategoryByPath db.categories x).isSome = true :=
        findCategoryByPath_isSome _ _ ⟨a, ha, hc⟩
      rw [this] at hex
      exact hex rfl

theorem foldl_cch_inv (products : List ParsedProduct) :
    ∀ (todo done : List String) (db : CatDb),
      sortedCandidates products = done ++ todo → CatInv db done →
      CatInv (todo.foldl createCategoryHierarchy db) (sortedCandidates products) := by
  intro todo
  induction todo with
  | nil =>
    intro done db hsplit hinv
    rw [List.foldl_nil, hsplit, List.append_nil]
    exact hinv
  | cons x todo' ih =>
    intro done db hsplit hinv
    rw [List.foldl_cons]
    refine ih (done ++ [x]) _ (by rw [hsplit]; simp) (cch_inv db done x hinv ?_)
    intro hlen
    have hx : x ∈ sortedCandidates products := by
      rw [hsplit]
      exact List.mem_append_right _ (List.mem_cons_self _ _)
    rcases candidate_parent_closure products x hx hlen with ⟨hppC, hpplt⟩
    have hppdone : jsJoin " > " ((jsSplit " > " x).dropLast) ∈ done := by
      rw [hsplit] at hppC
      rcases List.mem_append.mp hppC with hd | ht
      · exact hd
      · exfalso
        rcases List.mem_cons.mp ht with hpx | hpt
        · rw [hpx] at hpplt
          exact lt_irrefl x hpplt
        · have hsorted := sortedCandidates_sorted products
          rw [hsplit] at hsorted
          have hpair := (List.pairwise_append.mp hsorted).2.1
          have hxle := List.rel_of_pairwise_cons hpair hpt
          exact absurd (lt_of_lt_of_le hpplt hxle)
            (lt_irrefl (jsJoin " > " ((jsSplit " > " x).dropLast)))
    rcases hinv.2.2.2.1 _ hppdone with ⟨c, hcm, hcp⟩
    exact ⟨c, hcm, hcp⟩

/-- The category store the builder produces from scratch. -/
def builtCategories (products : List ParsedProduct) : CatDb :=
  migrateCategories products ⟨[], 0⟩

theorem builtCategories_inv (products : List ParsedProduct) :
    CatInv (builtCategories products) (sortedCandidates products) := by
  unfold builtCategories
  rw [migrateCategories_eq]
  refine foldl_cch_inv products (sortedCandidates products) [] ⟨[], 0⟩ rfl ?_
  refine ⟨?_, ?_, ?_, ?_, ?_⟩
  · intro c hc; simp at hc
  · intro c hc; simp at hc
  · intro c hc; simp at hc
  · intro c hc; simp at hc
  · exact List.Pairwise.nil

/-- C3: the Category Hierarchy Builder creates a node for every prefix of
every product's category path; each node's `level` is its segment count
minus one; no two nodes hold the same path (so "the node" of a path is
well defined); and each multi-segment node's parent link points at an
earlier-created node (smaller id, ids are assigned in creation order)
holding exactly the node's path with the last segment removed. -/
theorem C3_category_prefix_closure_levels_parents (products : List ParsedProduct) :
    (∀ p ∈ products, p.productCategory ≠ "" →
      ∀ k, 1 ≤ k → k ≤ (jsSplit " > " p.productCategory).length →
        ∃ c ∈ (builtCategories products).categories,
          c.shopifyCategory = jsJoin " > " ((jsSplit " > " p.productCategory).take k))
    ∧ (∀ c ∈ (builtCategories products).categories,
        c.level = (jsSplit " > " c.shopifyCategory).length - 1)
    ∧ ((builtCategories products).categories.Pairwise
        fun a b => a.shopifyCategory ≠ b.shopifyCategory)
    ∧ (∀ c ∈ (builtCategories products).categories,
        2 ≤ (jsSplit " > " c.shopifyCategory).length →
          ∃ par, par ∈ (builtCategories products).categories
            ∧ c.parentId = some par.id
            ∧ par.shopifyCategory = jsJoin " > " ((jsSplit " > " c.shopifyCategory).dropLast)
            ∧ par.id < c.id) := by
  obtain ⟨h1, h2, h3, h4, h5⟩ := builtCategories_inv products
  refine ⟨?_, h2, h5, h3⟩
  intro p hp hcat k hk1 hk2
  have hcand : jsJoin " > " ((jsSplit " > " p.productCategory).take k) ∈ sortedCandidates products := by
    rw [mem_sortedCandidates]
    unfold allCategoryPaths
    refine List.mem_flatMap.mpr ⟨p, hp, ?_⟩
    rw [if_pos hcat]
    unfold prefixPaths
    refine List.mem_map.mpr ⟨k - 1, List.mem_range.mpr (by omega), ?_⟩
    congr 2
    omega
  exact h4 _ hcand

/-- A product whose category path is the worked example's. -/
def exCatProd : ParsedProduct :=
  { prodT1 with productCategory := "Sports > Fitness > Mats" }

/-- Witness for C3 at the worked example: `Sports > Fitness` exists as a
node even though only the full path appears in the data. -/
theorem C3_witness :
    ∃ c ∈ (builtCategories [exCatProd]).categories,
      c.shopifyCategory
        = jsJoin " > " ((jsSplit " > " exCatProd.productCategory).take 2) :=
  (C3_category_prefix_closure_levels_parents [exCatProd]).1 exCatProd
    (List.mem_singleton_self _) (by decide) 2 (by decide) (by decide)
